import Mathlib

/-!
Verification of the multiplayer-games server (room manager, leaderboard and
the chess, xiangqi-FEN, Big Two, Bingo and Boggle engines) against its
natural-language specification.  Each JavaScript source function is embedded
as an executable Lean definition; randomness (`Math.random` shuffles) and
wall-clock time (`Date.now()`) are made explicit parameters, and a thrown
JavaScript `TypeError` is modelled as `none` of an `Option` result.
-/

set_option maxRecDepth 4000

namespace Games

/-! ### Room manager (`src/rooms/roomManager.js`) -/

/-- A seat: `{ socketId, name, color }`; `socketId = none` models `null`. -/
structure Player where
  socketId : Option Nat
  name : String
  color : String
  deriving Repr, DecidableEq

/-- A spectator entry `{ socketId, name }`. -/
structure Spectator where
  socketId : Option Nat
  name : String
  deriving Repr, DecidableEq

/-- A room record as created by `createRoom`.  The `deleteTimer` handle is
modelled by whether a timer is currently armed. -/
structure Room where
  players : List Player
  spectators : List Spectator
  colors : List String
  deleteTimer : Bool
  deriving Repr, DecidableEq

/-- Result of `joinRoom` on an existing room. -/
structure JoinResult where
  room : Room
  color : String
  reconnected : Bool
  deriving Repr, DecidableEq

/-- `joinRoom(roomId, socketId, name)` on a room that exists: cancel the delete
timer, rebind by name if a seat with this name exists, otherwise seat the
joiner while `room.players.length < 2`, otherwise push a spectator. -/
def joinRoom (room : Room) (socketId : Option Nat) (name : String) : JoinResult :=
  let room := { room with deleteTimer := false }
  match room.players.find? (fun p => p.name = name) with
  | some existing =>
      let players := room.players.map
        (fun p => if p.name = name then { p with socketId := socketId } else p)
      { room := { room with players := players }, color := existing.color,
        reconnected := true }
  | none =>
      if room.players.length < 2 then
        let color := room.colors.getD room.players.length ""
        { room := { room with
            players := room.players ++ [⟨socketId, name, color⟩] },
          color := color, reconnected := false }
      else
        { room := { room with
            spectators := room.spectators ++ [⟨socketId, name⟩] },
          color := "spectator", reconnected := false }

/-- `scheduleRoomCleanup`: clears any pending timer and arms a fresh one. -/
def scheduleRoomCleanup (room : Room) : Room :=
  { room with deleteTimer := true }

/-- Result of `leaveRoom` restricted to one room. -/
inductive LeaveResult where
  | playerLeft (room : Room) (playerName : String)
  | spectatorLeft (room : Room)
  | notFound
  deriving Repr, DecidableEq

/-- `leaveRoom(socketId)` on one room: a found seat keeps its place but its
`socketId` is nulled and `scheduleRoomCleanup` is called unconditionally; a
found spectator is removed (no timer is armed). -/
def leaveRoom (room : Room) (socketId : Nat) : LeaveResult :=
  match room.players.findIdx? (fun p => p.socketId = some socketId) with
  | some i =>
      let players := room.players.map
        (fun p => if p.socketId = some socketId then { p with socketId := none } else p)
      let room := scheduleRoomCleanup { room with players := players }
      LeaveResult.playerLeft room ((room.players.getD i ⟨none, "", ""⟩).name)
  | none =>
      match room.spectators.findIdx? (fun s => s.socketId = some socketId) with
      | some i =>
          LeaveResult.spectatorLeft
            { room with spectators := room.spectators.eraseIdx i }
      | none => LeaveResult.notFound

/-- The delete-timer callback: the room is deleted (`none`) only when no seat
still holds a live connection when the timer fires. -/
def cleanupFire (room : Room) : Option Room :=
  if room.players.any (fun p => p.socketId ≠ none) then some room else none

/-- Stable insertion of one element into a sorted list (`le a b` means `a`
may come before `b`). -/
def insertSorted (le : α → α → Bool) (a : α) : List α → List α
  | [] => [a]
  | b :: bs => if le a b then a :: b :: bs else b :: insertSorted le a bs

/-- JS `Array.sort(cmp)` as a stable (insertion) sort. -/
def jsSort (le : α → α → Bool) (l : List α) : List α :=
  l.foldr (insertSorted le) []

/-! ### Leaderboard (`src/leaderboard.js`) -/

/-- The nested map `gameType -> playerName -> wins`, as an association list. -/
abbrev LeaderStore := List (String × List (String × Nat))

/-- The `GAME_TYPES` constant of `leaderboard.js`. -/
def GAME_TYPES : List String := ["xiangqi", "chess", "chordaidi"]

/-- Increment `name` inside one per-game board. -/
def bumpName (board : List (String × Nat)) (name : String) : List (String × Nat) :=
  match board.find? (fun e => e.1 = name) with
  | some _ => board.map (fun e => if e.1 = name then (e.1, e.2 + 1) else e)
  | none => board ++ [(name, 1)]

/-- `recordWin(gameType, playerName)`. -/
def recordWin (store : LeaderStore) (gameType name : String) : LeaderStore :=
  if name = "" then store else
  match store.find? (fun e => e.1 = gameType) with
  | some _ => store.map (fun e => if e.1 = gameType then (e.1, bumpName e.2 name) else e)
  | none => store ++ [(gameType, bumpName [] name)]

/-- Merge one board into the aggregate map. -/
def aggBoard (agg : List (String × Nat)) (board : List (String × Nat)) :
    List (String × Nat) :=
  board.foldl (fun agg e =>
    match agg.find? (fun a => a.1 = e.1) with
    | some _ => agg.map (fun a => if a.1 = e.1 then (a.1, a.2 + e.2) else a)
    | none => agg ++ [e]) agg

/-- `getLeaderboard(gameType?, limit)`: aggregates over the requested game
type, or over the fixed `GAME_TYPES` list when none is given, then sorts by
wins descending and truncates. -/
def getLeaderboard (store : LeaderStore) (gameType : Option String)
    (limit : Nat) : List (String × Nat) :=
  let types := match gameType with
    | some gt => [gt]
    | none => GAME_TYPES
  let agg := types.foldl (fun agg gt =>
    match store.find? (fun e => e.1 = gt) with
    | some board => aggBoard agg board.2
    | none => agg) []
  ((jsSort (fun a b => b.2 ≤ a.2) agg).take limit)

/-! ### Big Two engine (`src/engine/chordaidi.js`)

Card ids are 0..51 with `id = rank*4 + suit`; `cardValue` of a card equals
its id, so cards are represented by their ids directly. -/

/-- `rankValue(card.rank)` for the card with this id (`RANKS.indexOf`). -/
def rankOf (id : Nat) : Nat := id / 4

/-- `suitValue(card.suit)` for the card with this id (`SUITS.indexOf`). -/
def suitOf (id : Nat) : Nat := id % 4

/-- A classified combo `{ type, cards, key }`; `cards` keeps ids sorted by
`cardValue` (which is the id itself). -/
structure Combo where
  type : String
  cards : List Nat
  key : Nat
  deriving Repr, DecidableEq

/-- The five-card classifier `classifyFiveCard` (cards already sorted). -/
def classifyFiveCard (cards : List Nat) : Option Combo :=
  let ranks := cards.map rankOf
  let suits := cards.map suitOf
  let isFlush := suits.all (fun s => s = suits.headD 0)
  let sorted := jsSort (fun a b => a ≤ b) ranks
  let isStraight := (List.range sorted.length).all (fun i =>
    i = 0 || sorted.getD i 0 = sorted.getD (i - 1) 0 + 1)
  let counts := jsSort (fun a b => b ≤ a) ((ranks.dedup).map (fun r => ranks.count r))
  let highest := cards.getD (cards.length - 1) 0
  if isFlush && isStraight then some ⟨"straightflush", cards, highest⟩
  else if counts.headD 0 = 4 then some ⟨"quads", cards, highest⟩
  else if counts.headD 0 = 3 && counts.getD 1 0 = 2 then some ⟨"fullhouse", cards, highest⟩
  else if isFlush then some ⟨"flush", cards, highest⟩
  else if isStraight then some ⟨"straight", cards, highest⟩
  else none

/-- `classifyCombo(cardIds)`. -/
def classifyCombo (cardIds : List Nat) : Option Combo :=
  let cards := jsSort (fun a b => a ≤ b) cardIds
  match cards.length with
  | 0 => none
  | 1 => some ⟨"single", cards, cards.getD 0 0⟩
  | 2 => if rankOf (cards.getD 0 0) = rankOf (cards.getD 1 0)
         then some ⟨"pair", cards, cards.getD 1 0⟩ else none
  | 3 => if rankOf (cards.getD 0 0) = rankOf (cards.getD 1 0) &&
            rankOf (cards.getD 1 0) = rankOf (cards.getD 2 0)
         then some ⟨"triple", cards, cards.getD 2 0⟩ else none
  | 5 => classifyFiveCard cards
  | _ => none

/-- The `FIVE_CARD_RANK` table (`undefined` is `none`). -/
def fiveCardRank (t : String) : Option Nat :=
  if t = "straight" then some 0
  else if t = "flush" then some 1
  else if t = "fullhouse" then some 2
  else if t = "quads" then some 3
  else if t = "straightflush" then some 4
  else none

/-- `beats(incoming, table)`. -/
def beats (incoming table : Combo) : Bool :=
  if table.type = "single" || table.type = "pair" || table.type = "triple" then
    incoming.type = table.type && incoming.key > table.key
  else if (fiveCardRank table.type).isSome then
    match fiveCardRank incoming.type, fiveCardRank table.type with
    | some ir, some tr => if ir ≠ tr then ir > tr else incoming.key > table.key
    | none, _ => false
    | _, none => false
  else false

/-- `deal()` with the shuffled deck made an explicit parameter: card `i` of
the deck goes to hand `i % 4`, then each hand is sorted ascending. -/
def deal (deck : List Nat) : List (List Nat) :=
  (List.range 4).map (fun j =>
    (jsSort (fun a b => a ≤ b) ((deck.enum.filter (fun p => p.1 % 4 = j)).map Prod.snd)))

/-- JS `hand.splice(hand.indexOf(id), 1)`: removes the first occurrence of
`id`, or — when `id` is absent, `indexOf` is `-1` and `splice(-1, 1)` —
removes the **last** element of the hand. -/
def spliceRemove (hand : List Nat) (id : Nat) : List Nat :=
  if id ∈ hand then hand.erase id else hand.dropLast

/-- The mutable game state of `createGame()` plus its `history` log. -/
structure CdiState where
  hands : List (List Nat)
  currentSeat : Nat
  passCount : Nat
  tableCombo : Option Combo
  tableOwner : Option Nat
  roundFirst : Bool
  winnerSeat : Option Nat
  history : List (Nat × List Nat × Bool)   -- (seat, cardIds, pass)
  deriving Repr, DecidableEq

/-- A `{ ok, reason }` result. -/
structure MoveResult where
  ok : Bool
  reason : String
  deriving Repr, DecidableEq

def okResult : MoveResult := ⟨true, ""⟩

/-- `createGame()` with the shuffled deck explicit: `startSeat` is
`hands.findIndex(h => h.includes(0))`. -/
def cdiCreateGame (deck : List Nat) : CdiState :=
  let hands := deal deck
  let startSeat := (hands.findIdx (fun h => h.contains 0))
  { hands := hands, currentSeat := startSeat, passCount := 0,
    tableCombo := none, tableOwner := none, roundFirst := true,
    winnerSeat := none, history := [] }

def nextSeat (s : Nat) : Nat := (s + 1) % 4

/-- `play(seat, cardIds)`. -/
def cdiPlay (st : CdiState) (seat : Nat) (cardIds : List Nat) :
    MoveResult × CdiState :=
  if st.winnerSeat.isSome then (⟨false, "Game over"⟩, st)
  else if seat ≠ st.currentSeat then (⟨false, "Not your turn"⟩, st)
  else
    let hand := st.hands.getD seat []
    if ¬ cardIds.all (fun id => hand.contains id) then
      (⟨false, "Card not in hand"⟩, st)
    else match classifyCombo cardIds with
    | none => (⟨false, "Invalid combination"⟩, st)
    | some combo =>
      if st.roundFirst && ¬ cardIds.contains 0 then
        (⟨false, "First play must include 3♦"⟩, st)
      else
        let roundFirst := false
        match st.tableCombo with
        | some table =>
          if ¬ beats combo table then (⟨false, "Does not beat the table"⟩, st)
          else
            let hands := st.hands.set seat (cardIds.foldl spliceRemove hand)
            let st' := { st with
              hands := hands
              tableCombo := some combo
              tableOwner := some seat
              passCount := 0
              roundFirst := st.roundFirst && roundFirst
              history := st.history ++ [(seat, cardIds, false)] }
            if (st'.hands.getD seat []).length = 0 then
              (okResult, { st' with winnerSeat := some seat })
            else (okResult, { st' with currentSeat := nextSeat seat })
        | none =>
            let hands := st.hands.set seat (cardIds.foldl spliceRemove hand)
            let st' := { st with
              hands := hands
              tableCombo := some combo
              tableOwner := some seat
              passCount := 0
              roundFirst := st.roundFirst && roundFirst
              history := st.history ++ [(seat, cardIds, false)] }
            if (st'.hands.getD seat []).length = 0 then
              (okResult, { st' with winnerSeat := some seat })
            else (okResult, { st' with currentSeat := nextSeat seat })

/-- `passFixed(seat)` — the function the engine actually exposes as `pass`
(note: there is no owner check). -/
def cdiPass (st : CdiState) (seat : Nat) : MoveResult × CdiState :=
  if st.winnerSeat.isSome then (⟨false, "Game over"⟩, st)
  else if seat ≠ st.currentSeat then (⟨false, "Not your turn"⟩, st)
  else if st.tableCombo.isNone then (⟨false, "Cannot pass on an empty table"⟩, st)
  else
    let owner := st.tableOwner
    let st' := { st with
      history := st.history ++ [(seat, [], true)]
      passCount := st.passCount + 1
      currentSeat := nextSeat seat }
    if st'.passCount = 3 then
      (okResult, { st' with
        tableCombo := none
        passCount := 0
        currentSeat := owner.getD st'.currentSeat
        tableOwner := none })
    else (okResult, st')

/-- The unused first version `pass(seat)` — the only place the owner check
and its error string occur. -/
def cdiPassUnused (st : CdiState) (seat : Nat) : MoveResult × CdiState :=
  if st.winnerSeat.isSome then (⟨false, "Game over"⟩, st)
  else if seat ≠ st.currentSeat then (⟨false, "Not your turn"⟩, st)
  else if st.tableCombo.isNone then (⟨false, "Cannot pass on an empty table"⟩, st)
  else if st.tableOwner = some seat then
    (⟨false, "You own the table — play or wait"⟩, st)
  else
    let st' := { st with
      history := st.history ++ [(seat, [], true)]
      passCount := st.passCount + 1
      currentSeat := nextSeat seat }
    if st'.passCount = 3 then
      (okResult, { st' with
        tableCombo := none
        tableOwner := none
        passCount := 0 })
    else (okResult, st')

/-- One engine step: some seat calls `play` or `pass` (rejected calls leave
the state unchanged, so they are also covered). -/
def CdiStep (s s' : CdiState) : Prop :=
  (∃ seat cardIds, s' = (cdiPlay s seat cardIds).2) ∨
  (∃ seat, s' = (cdiPass s seat).2)

/-- States reachable from `createGame()` on some dealt deck. -/
def CdiReachable (deck : List Nat) (s : CdiState) : Prop :=
  Relation.ReflTransGen CdiStep (cdiCreateGame deck) s

/-- The table-ownership invariant: while a combo is on the table its owner
is recorded, fewer than three passes have accumulated against it, and (while
the game is running) the seat to act trails the owner by `1 + passCount`
seats. -/
def CdiInv (s : CdiState) : Prop :=
  s.tableCombo.isSome = true →
    ∃ o, s.tableOwner = some o ∧ s.passCount < 3 ∧
      (s.winnerSeat = none → s.currentSeat = (o + 1 + s.passCount) % 4)

/-- The card ids on the table and in all previously played combos: every
non-pass history entry's `cardIds`. -/
def cdiDiscards (st : CdiState) : List Nat :=
  (st.history.filterMap (fun h => if h.2.2 then none else some h.2.1)).flatten

/-- The full multiset of card ids: the four hands plus the discards. -/
def cdiAllCards (st : CdiState) : List Nat :=
  st.hands.flatten ++ cdiDiscards st

/-! ### Bingo engine (`src/engine/bingo.js`)

Cards and the shuffled 1..75 pool are `Math.random`-shuffled in the source;
both are explicit parameters here.  A card is a 5×5 grid (row-major list of
rows); the centre `FREE` square holds 0 and is pre-marked. -/

/-- A winner entry `{ seat, types }`. -/
structure BingoWinner where
  seat : Nat
  types : List String
  deriving Repr, DecidableEq

/-- The mutable state of a Bingo `createGame(playerCount)`. -/
structure BingoState where
  pool : List Nat                       -- remaining numbers; `pop` takes the last
  called : List Nat
  cards : List (List (List Nat))        -- per seat, 5 rows of 5 numbers
  marked : List (List (List Bool))
  isGameOver : Bool
  winners : List BingoWinner
  playerCount : Nat
  deriving Repr, DecidableEq

/-- `initialMarked()`: all false except the FREE centre (row 2, col 2). -/
def initialMarked : List (List Bool) :=
  (List.range 5).map (fun r => (List.range 5).map (fun c => r = 2 && c = 2))

/-- `createGame(playerCount)` with the shuffled pool and the generated cards
explicit. -/
def bingoCreateGame (pool : List Nat) (cards : List (List (List Nat)))
    (playerCount : Nat) : BingoState :=
  { pool := pool, called := [], cards := cards,
    marked := (List.range playerCount).map (fun _ => initialMarked),
    isGameOver := false, winners := [], playerCount := playerCount }

/-- `checkWins(marked)`: the list of satisfied pattern labels, in source
order (rows, columns, the two diagonals, full house). -/
def checkWins (marked : List (List Bool)) : List String :=
  (((List.range 5).filterMap (fun r =>
      if (marked.getD r []).all (fun v => v) then some ("row" ++ toString r) else none)) ++
   ((List.range 5).filterMap (fun c =>
      if marked.all (fun row => row.getD c false) then some ("col" ++ toString c) else none)) ++
   (if (List.range 5).all (fun i => (marked.getD i []).getD i false) then ["diag-tl"] else []) ++
   (if (List.range 5).all (fun i => (marked.getD i []).getD (4 - i) false) then ["diag-tr"] else []) ++
   (if marked.all (fun row => row.all (fun v => v)) then ["fullhouse"] else []))

/-- Mark every cell of every card that equals the called number. -/
def bingoMark (cards : List (List (List Nat))) (marked : List (List (List Bool)))
    (num : Nat) (playerCount : Nat) : List (List (List Bool)) :=
  (List.range playerCount).map (fun p =>
    (List.range 5).map (fun r =>
      (List.range 5).map (fun c =>
        ((marked.getD p []).getD r []).getD c false ||
          ((cards.getD p []).getD r []).getD c 0 = num)))

/-- The freshly-winning seats of a call: seats with a non-empty pattern list
that are not already in the winners list. -/
def bingoNewWinners (marked : List (List (List Bool)))
    (winners : List BingoWinner) (playerCount : Nat) : List BingoWinner :=
  (List.range playerCount).filterMap (fun p =>
    let wins := checkWins (marked.getD p [])
    if wins ≠ [] && (winners.find? (fun w => w.seat = p)).isNone then
      some ⟨p, wins⟩
    else none)

/-- A `callNumber` result `{ ok, reason, number }`. -/
structure CallResult where
  ok : Bool
  reason : String
  number : Option Nat
  deriving Repr, DecidableEq

/-- `callNumber(seat)`. -/
def callNumber (st : BingoState) (seat : Nat) : CallResult × BingoState :=
  if seat ≠ 0 then (⟨false, "Only the caller can draw numbers", none⟩, st)
  else if st.isGameOver then (⟨false, "Game is over", none⟩, st)
  else if st.pool.length = 0 then (⟨false, "All numbers have been called!", none⟩, st)
  else
    let num := st.pool.getLast? |>.getD 0
    let pool := st.pool.dropLast
    let called := st.called ++ [num]
    let marked := bingoMark st.cards st.marked num st.playerCount
    let newWinners := bingoNewWinners marked st.winners st.playerCount
    let st' := { st with
      pool := pool
      called := called
      marked := marked
      winners := st.winners ++ newWinners
      isGameOver := st.isGameOver || newWinners ≠ [] }
    (⟨true, "", some num⟩, st')

/-- Iterate `callNumber` from seat 0 `n` times, keeping only the state. -/
def bingoRun (st : BingoState) : Nat → BingoState
  | 0 => st
  | n + 1 => bingoRun (callNumber st 0).2 n

/-! ### Boggle engine (`src/engine/boggle.js`)

The dice roll (board), the bundled `WORD_SET` and `Date.now()` are explicit
parameters.  The per-seat `Set`s of accepted words are insertion-ordered
lists without duplicates (the `Already submitted` guard keeps them so). -/

/-- `scoreWord(word)`: 3–4 letters = 1, 5 = 2, 6 = 3, 7 = 5, 8+ = 11. -/
def scoreWord (word : String) : Nat :=
  let len := word.length
  if len < 3 then 0
  else if len ≤ 4 then 1
  else if len = 5 then 2
  else if len = 6 then 3
  else if len = 7 then 5
  else 11

/-- `adjacent(i, j)` on the flat 4×4 grid. -/
def adjacent (i j : Nat) : Bool :=
  let r1 := i / 4
  let c1 := i % 4
  let r2 := j / 4
  let c2 := j % 4
  ((r1 : Int) - r2).natAbs ≤ 1 && ((c1 : Int) - c2).natAbs ≤ 1 && i ≠ j

/-- The face tile at a board cell: `Q` stands for the digraph `QU`. -/
def tileAt (board : List Char) (i : Nat) : List Char :=
  if board.getD i ' ' = 'Q' then ['Q', 'U'] else [board.getD i ' ']

/-- `dfsPath`: can the remaining `suffix` be traced from cell `pos`?  The
fuel is the number of still-unused cells, which strictly decreases. -/
def dfsPath (board : List Char) (suffix : List Char) (pos : Nat)
    (used : List Bool) : Nat → Bool
  | 0 => suffix.isEmpty
  | fuel + 1 =>
    if suffix.isEmpty then true
    else (List.range 16).any (fun next =>
      if used.getD next false then false
      else if ¬ adjacent pos next then false
      else
        let tile := tileAt board next
        if tile.isPrefixOf suffix then
          dfsPath board (suffix.drop tile.length) next (used.set next true) fuel
        else false)

/-- `canFormWord(board, word)`. -/
def canFormWord (board : List Char) (word : String) : Bool :=
  (List.range 16).any (fun start =>
    let tile := tileAt board start
    if tile.isPrefixOf word.toList then
      dfsPath board (word.toList.drop tile.length) start
        ((List.replicate 16 false).set start true) 16
    else false)

/-- The state of a Boggle `createGame(playerCount)`; `submissions` has one
entry per seat, `wordSet` is the bundled dictionary. -/
structure BoggleState where
  board : List Char
  startTime : Nat
  submissions : List (List String)
  isGameOver : Bool
  wordSet : List String
  deriving Repr, DecidableEq

/-- JS `String.prototype.toUpperCase`, character-wise. -/
def jsToUpper (s : List Char) : List Char := s.map Char.toUpper

/-- JS whitespace for `trim` (the forms that can occur here). -/
def isWsCh (c : Char) : Bool := c = ' ' || c = '\t' || c = '\n' || c = '\r'

/-- JS `String.prototype.trim`. -/
def jsTrim (s : List Char) : List Char :=
  ((s.dropWhile isWsCh).reverse.dropWhile isWsCh).reverse

/-- `timeLeft()` with `Date.now()` explicit. -/
def timeLeft (st : BoggleState) (now : Nat) : Nat :=
  180 - (now - st.startTime) / 1000

/-- A `submitWord` result: `{ ok, reason }` or `{ ok, word }`. -/
structure SubmitResult where
  ok : Bool
  reason : String
  word : Option String
  deriving Repr, DecidableEq

/-- JS `submissions[seat]` with a possibly negative or too-large index:
`undefined` is `none`. -/
def seatSubs (subs : List (List String)) (seat : Int) : Option (List String) :=
  if 0 ≤ seat ∧ seat.toNat < subs.length then some (subs.getD seat.toNat []) else none

/-- `submitWord(seat, word)`; `none` models the `TypeError` thrown when
`submissions[seat]` is `undefined` (`seat` outside `0..playerCount-1`). -/
def submitWord (st : BoggleState) (seat : Int) (word : String) (now : Nat) :
    Option (SubmitResult × BoggleState) :=
  if st.isGameOver then some (⟨false, "Round is over", none⟩, st)
  else if timeLeft st now = 0 then some (⟨false, "Time is up", none⟩, st)
  else
    let w : String := ⟨jsTrim (jsToUpper word.toList)⟩
    if w.length < 3 then some (⟨false, "Words must be at least 3 letters", none⟩, st)
    else if ¬ (w.length > 0 && w.toList.all (fun c => 'A' ≤ c && c ≤ 'Z')) then
      some (⟨false, "Letters only", none⟩, st)
    else match seatSubs st.submissions seat with
    | none => none
    | some mySet =>
      if mySet.contains w then some (⟨false, "Already submitted", none⟩, st)
      else if ¬ st.wordSet.contains w then some (⟨false, "Not a valid word", none⟩, st)
      else if ¬ canFormWord st.board w then
        some (⟨false, "Cannot be formed on the board", none⟩, st)
      else
        some (⟨true, "", some w⟩,
          { st with submissions :=
              st.submissions.set seat.toNat (mySet ++ [w]) })

/-- One annotated entry of a seat's final word list. -/
structure WordEntry where
  word : String
  score : Nat
  unique : Bool
  deriving Repr, DecidableEq

/-- `allWords.get(w).push(s)` preceded by `allWords.set(w, [])` when absent. -/
def insertWordSeat (acc : List (String × List Nat)) (w : String) (s : Nat) :
    List (String × List Nat) :=
  match acc.find? (fun e => e.1 = w) with
  | some _ => acc.map (fun e => if e.1 = w then (e.1, e.2 ++ [s]) else e)
  | none => acc ++ [(w, [s])]

/-- The seat loop of `endRound` (`for (let s = 0; …)`), carrying the seat
index. -/
def allWordsGo (acc : List (String × List Nat)) (s : Nat) :
    List (List String) → List (String × List Nat)
  | [] => acc
  | ws :: rest => allWordsGo (ws.foldl (fun a w => insertWordSeat a w s) acc) (s + 1) rest

/-- The `word → [seats]` map built by `endRound`. -/
def allWordsOf (subs : List (List String)) : List (String × List Nat) :=
  allWordsGo [] 0 subs

/-- The per-seat scores computed by `endRound`. -/
def endScores (subs : List (List String)) : List Nat :=
  (allWordsOf subs).foldl (fun sc e =>
    let pts := if e.2.length = 1 then scoreWord e.1 else 0
    e.2.foldl (fun sc t => sc.set t (sc.getD t 0 + pts)) sc)
    (List.replicate subs.length 0)

/-- The per-seat annotated word lists computed by `endRound` (before the
final unique-first/alphabetical sort). -/
def endWordsRaw (subs : List (List String)) : List (List WordEntry) :=
  (allWordsOf subs).foldl (fun ws e =>
    let unique := e.2.length = 1
    let pts := if unique then scoreWord e.1 else 0
    e.2.foldl (fun ws t => ws.set t (ws.getD t [] ++ [⟨e.1, pts, unique⟩])) ws)
    (List.replicate subs.length [])

/-- `endRound`'s final per-seat word lists: unique first, then alphabetical. -/
def endWords (subs : List (List String)) : List (List WordEntry) :=
  (endWordsRaw subs).map (fun l =>
    jsSort (fun a b =>
      if a.unique ≠ b.unique then a.unique else a.word ≤ b.word) l)

/-- The seats that submitted this word, in increasing order. -/
def seatsIdx (subs : List (List String)) (w : String) : List Nat :=
  (List.range subs.length).filter (fun s => w ∈ subs.getD s [])

/-- How many seats submitted this word. -/
def seatCount (subs : List (List String)) (w : String) : Nat :=
  (seatsIdx subs w).length

/-- Lookup in the `word → [seats]` association list. -/
def awLookup (acc : List (String × List Nat)) (w : String) : Option (List Nat) :=
  (acc.find? (fun e => e.1 = w)).map Prod.snd

/-! ### FEN strings (shared by `chess.js` and `xiangqi.js`)

Strings are `List Char`.  `natDigits` is the decimal rendering JS performs
when a number is appended to a string; `parseIntL` models `parseInt` on the
digit-only fields that occur in FEN (the whitespace/sign handling and the
NaN propagation of `parseInt` on malformed input are not needed on any
serialised position and are not modelled). -/

/-- The character of a decimal digit (`0 ≤ n ≤ 9`). -/
def jsDigitChar (n : Nat) : Char := Char.ofNat (48 + n)

/-- JS `/\d/.test(ch)`. -/
def isDigitCh (ch : Char) : Bool := '0' ≤ ch && ch ≤ '9'

/-- The numeric value of a digit character (`parseInt(ch)` for one digit). -/
def digitVal (ch : Char) : Nat := ch.toNat - 48

/-- Decimal rendering, on fuel (any fuel above the value is enough). -/
def natDigitsGo : Nat → Nat → List Char
  | 0, _ => []
  | fuel + 1, n =>
    if n < 10 then [jsDigitChar n]
    else natDigitsGo fuel (n / 10) ++ [jsDigitChar (n % 10)]

/-- Decimal rendering of a number appended to a string. -/
def natDigits (n : Nat) : List Char := natDigitsGo (n + 1) n

/-- `parseInt` on a field that starts with digits; `none` is NaN. -/
def parseIntL (s : List Char) : Option Nat :=
  let digits := s.takeWhile isDigitCh
  if digits.isEmpty then none
  else some (digits.foldl (fun a ch => a * 10 + digitVal ch) 0)

/-- JS `arr.join(sep)` for a one-character separator. -/
def jsJoin (sep : Char) : List (List Char) → List Char
  | [] => []
  | [f] => f
  | f :: rest => f ++ sep :: jsJoin sep rest

/-- JS `str.split(sep)` for a one-character separator. -/
def splitOnChar (sep : Char) : List Char → List (List Char)
  | [] => [[]]
  | ch :: rest =>
    match splitOnChar sep rest with
    | [] => [[]]
    | g :: gs => if ch = sep then [] :: g :: gs else (ch :: g) :: gs

/-- One board row rendered to FEN, carrying the pending empty-run count. -/
def rowToFenAux : List (Option Char) → Nat → List Char
  | [], 0 => []
  | [], e + 1 => natDigits (e + 1)
  | none :: rest, e => rowToFenAux rest (e + 1)
  | some ch :: rest, 0 => ch :: rowToFenAux rest 0
  | some ch :: rest, e + 1 => natDigits (e + 1) ++ ch :: rowToFenAux rest 0

/-- One board row rendered to FEN. -/
def rowToFen (row : List (Option Char)) : List Char := rowToFenAux row 0

/-- One FEN row parsed back to cells: a digit pushes that many `null`s. -/
def parseRowL : List Char → List (Option Char)
  | [] => []
  | ch :: rest =>
    if isDigitCh ch then List.replicate (digitVal ch) none ++ parseRowL rest
    else some ch :: parseRowL rest

/-- JS `str.indexOf(ch)` (−1 when absent). -/
def jsIndexOf (s : List Char) (ch : Char) : Int :=
  match s.findIdx? (fun c => c = ch) with
  | some i => (i : Int)
  | none => -1

/-- JS `field || dflt` on string fields (empty and missing are falsy). -/
def jsOrField (f : List Char) (dflt : List Char) : List Char :=
  if f = [] then dflt else f

/-- JS `parseInt(field) || dflt` (NaN and 0 are falsy). -/
def jsOrNum (v : Option Nat) (dflt : Nat) : Nat :=
  match v with
  | some n => if n = 0 then dflt else n
  | none => dflt

/-! ### Chess engine (`src/engine/chess.js`) -/

/-- Castling-rights record `{K, Q, k, q}`. -/
structure Castling where
  wK : Bool
  wQ : Bool
  bK : Bool
  bQ : Bool
  deriving Repr, DecidableEq

/-- The chess state: 8×8 board of nullable piece characters (row 0 = rank
8), side to move (the FEN field, `"w"` or `"b"`), castling rights,
en-passant target, halfmove clock, fullmove number. -/
structure ChessState where
  board : List (List (Option Char))
  turn : List Char
  castling : Castling
  enPassant : Option (Int × Int)
  halfmove : Nat
  fullmove : Nat
  deriving Repr, DecidableEq

/-- The castling field of `boardToFen`: the set rights in `KQkq` order, or
`-` when none remain. -/
def castleFieldOf (cs : Castling) : List Char :=
  jsOrField
    ((if cs.wK then ['K'] else []) ++ (if cs.wQ then ['Q'] else []) ++
     (if cs.bK then ['k'] else []) ++ (if cs.bQ then ['q'] else [])) ['-']

/-- The en-passant field of `boardToFen`: file letter plus rank digit, or
`-`. -/
def epFieldOf : Option (Int × Int) → List Char
  | some rc => ["abcdefgh".toList.getD rc.2.toNat ' '] ++ natDigits (8 - rc.1).toNat
  | none => ['-']

/-- `boardToFen(board, turn, castling, enPassant, halfmove, fullmove)`. -/
def chessBoardToFen (st : ChessState) : List Char :=
  jsJoin ' '
    [jsJoin '/' (st.board.map rowToFen), st.turn, castleFieldOf st.castling,
     epFieldOf st.enPassant, natDigits st.halfmove, natDigits st.fullmove]

/-- `parseFen(fen)` for chess. -/
def chessParseFen (fen : List Char) : ChessState :=
  let parts := splitOnChar ' ' fen
  let turn := jsOrField (parts.getD 1 []) ['w']
  let castlingStr := jsOrField (parts.getD 2 []) ['-']
  let epStr := jsOrField (parts.getD 3 []) ['-']
  let halfmove := jsOrNum (parseIntL (parts.getD 4 [])) 0
  let fullmove := jsOrNum (parseIntL (parts.getD 5 [])) 1
  let board := (splitOnChar '/' (parts.getD 0 [])).map parseRowL
  let castling : Castling :=
    ⟨castlingStr.contains 'K', castlingStr.contains 'Q',
     castlingStr.contains 'k', castlingStr.contains 'q'⟩
  let enPassant : Option (Int × Int) :=
    if epStr ≠ ['-'] then
      some (8 - (parseIntL [epStr.getD 1 ' ']).getD 0,
            jsIndexOf "abcdefgh".toList (epStr.getD 0 ' '))
    else none
  { board := board, turn := turn, castling := castling,
    enPassant := enPassant, halfmove := halfmove, fullmove := fullmove }

/-- `isWhite(p)` on a piece character. -/
def isWhiteP (p : Char) : Bool := p.toUpper = p

/-- `isWhite` on a nullable square (`null` is falsy). -/
def isWhiteO : Option Char → Bool
  | some p => isWhiteP p
  | none => false

/-- `sameColor(a, b)`. -/
def sameColorO : Option Char → Option Char → Bool
  | some a, some b => isWhiteP a = isWhiteP b
  | _, _ => false

/-- `inBounds(r, c)`. -/
def inBounds (r c : Int) : Bool := 0 ≤ r && r ≤ 7 && 0 ≤ c && c ≤ 7

/-- `board[r][c]` (out of bounds reads as empty; the source only indexes in
bounds). -/
def bget (board : List (List (Option Char))) (r c : Int) : Option Char :=
  if 0 ≤ r ∧ 0 ≤ c then (board.getD r.toNat []).getD c.toNat none else none

/-- `board[r][c] = v` (out of bounds writes are dropped). -/
def bset (board : List (List (Option Char))) (r c : Int) (v : Option Char) :
    List (List (Option Char)) :=
  if 0 ≤ r ∧ 0 ≤ c then
    board.set r.toNat ((board.getD r.toNat []).set c.toNat v)
  else board

/-- One sliding ray from `(r+dr, c+dc)`: empty squares continue, the first
occupied square is included only when it holds an enemy piece. -/
def slideGo (board : List (List (Option Char))) (piece : Char) (dr dc nr nc : Int) :
    Nat → List (Int × Int)
  | 0 => []
  | fuel + 1 =>
    if ¬ inBounds nr nc then []
    else match bget board nr nc with
      | some q => if isWhiteP piece = isWhiteP q then [] else [(nr, nc)]
      | none => (nr, nc) :: slideGo board piece dr dc (nr + dr) (nc + dc) fuel

/-- A single-step candidate (knight/king `add`). -/
def stepAdd (board : List (List (Option Char))) (piece : Char) (nr nc : Int) :
    List (Int × Int) :=
  if inBounds nr nc && ¬ sameColorO (some piece) (bget board nr nc) then [(nr, nc)]
  else []

/-- `getCandidateMoves` with `skipCastling = true`: every piece's candidate
destinations except castling.  `ep` is the `state.enPassant` field the pawn
rule consults. -/
def candidatesNC (board : List (List (Option Char))) (ep : Option (Int × Int))
    (r c : Int) : List (Int × Int) :=
  match bget board r c with
  | none => []
  | some piece =>
    let p := piece.toLower
    let white := isWhiteP piece
    (if p = 'r' ∨ p = 'q' then
      ([((-1 : Int), (0 : Int)), (1, 0), (0, -1), (0, 1)].flatMap
        (fun d => slideGo board piece d.1 d.2 (r + d.1) (c + d.2) 8))
     else []) ++
    (if p = 'b' ∨ p = 'q' then
      ([((-1 : Int), (-1 : Int)), (-1, 1), (1, -1), (1, 1)].flatMap
        (fun d => slideGo board piece d.1 d.2 (r + d.1) (c + d.2) 8))
     else []) ++
    (if p = 'n' then
      ([((-2 : Int), (-1 : Int)), (-2, 1), (-1, -2), (-1, 2), (1, -2), (1, 2),
        (2, -1), (2, 1)].flatMap (fun d => stepAdd board piece (r + d.1) (c + d.2)))
     else []) ++
    (if p = 'p' then
      (let dir : Int := if white then -1 else 1
       let startRow : Int := if white then 6 else 1
       (if inBounds (r + dir) c && (bget board (r + dir) c).isNone then
         [(r + dir, c)] ++
         (if r = startRow && (bget board (r + 2 * dir) c).isNone then
           [(r + 2 * dir, c)] else [])
        else []) ++
       ([(-1 : Int), 1].flatMap (fun dc =>
         let nr := r + dir
         let nc := c + dc
         if ¬ inBounds nr nc then []
         else
           (if (bget board nr nc).isSome &&
               ¬ sameColorO (some piece) (bget board nr nc) then [(nr, nc)] else []) ++
           (if ep = some (nr, nc) then [(nr, nc)] else []))))
     else []) ++
    (if p = 'k' then
      ([((-1 : Int), (-1 : Int)), (-1, 0), (-1, 1), (0, -1), (0, 1), (1, -1),
        (1, 0), (1, 1)].flatMap (fun d => stepAdd board piece (r + d.1) (c + d.2)))
     else [])

/-- `isSquareAttacked(board, state, r, c, byWhite)`: some piece of that
colour has `(r, c)` among its non-castling candidates (with the en-passant
field blanked, as the source does). -/
def isSquareAttacked (board : List (List (Option Char))) (r c : Int)
    (byWhite : Bool) : Bool :=
  (List.range 8).any (fun pr => (List.range 8).any (fun pc =>
    match bget board pr pc with
    | none => false
    | some piece =>
      isWhiteP piece = byWhite &&
        (candidatesNC board none pr pc).contains (r, c)))

/-- The castling candidates of `getCandidateMoves` (empty when the moving
piece is not a king on its home square `e1`/`e8`). -/
def castleMoves (board : List (List (Option Char))) (castling : Castling)
    (r c : Int) : List (Int × Int) :=
  match bget board r c with
  | none => []
  | some piece =>
    if piece.toLower ≠ 'k' then []
    else
      let white := isWhiteP piece
      let backRank : Int := if white then 7 else 0
      if r = backRank && c = 4 then
        (if (if white then castling.wK else castling.bK) &&
            (bget board backRank 5).isNone && (bget board backRank 6).isNone &&
            ¬ isSquareAttacked board backRank 4 (¬ white) &&
            ¬ isSquareAttacked board backRank 5 (¬ white) &&
            ¬ isSquareAttacked board backRank 6 (¬ white) then
          [(backRank, (6 : Int))] else []) ++
        (if (if white then castling.wQ else castling.bQ) &&
            (bget board backRank 3).isNone && (bget board backRank 2).isNone &&
            (bget board backRank 1).isNone &&
            ¬ isSquareAttacked board backRank 4 (¬ white) &&
            ¬ isSquareAttacked board backRank 3 (¬ white) &&
            ¬ isSquareAttacked board backRank 2 (¬ white) then
          [(backRank, (2 : Int))] else [])
      else []

/-- `getCandidateMoves(board, state, r, c)` (castling included). -/
def getCandidateMoves (st : ChessState) (r c : Int) : List (Int × Int) :=
  candidatesNC st.board st.enPassant r c ++ castleMoves st.board st.castling r c

/-- The `rookSquares` table: which right a vacated/captured corner clears. -/
def rookRightAt (r c : Int) : Option Char :=
  if r = 7 && c = 7 then some 'K'
  else if r = 7 && c = 0 then some 'Q'
  else if r = 0 && c = 7 then some 'k'
  else if r = 0 && c = 0 then some 'q'
  else none

/-- Clear one castling right by its FEN letter. -/
def clearRight (cs : Castling) : Option Char → Castling
  | some 'K' => { cs with wK := false }
  | some 'Q' => { cs with wQ := false }
  | some 'k' => { cs with bK := false }
  | some 'q' => { cs with bQ := false }
  | _ => cs

/-- `applyMove(state, from, to, promotion)`. -/
def chessApplyMove (st : ChessState) (fr fc tr tc : Int)
    (promotion : Option Char) : ChessState :=
  let piece := (bget st.board fr fc).getD ' '
  let p := piece.toLower
  let white := isWhiteP piece
  let board := st.board
  -- en passant capture: remove the pawn on the moving pawn's rank
  let board := if p = 'p' && st.enPassant = some (tr, tc) then
    bset board fr tc none else board
  let enPassant : Option (Int × Int) :=
    if p = 'p' && (tr - fr).natAbs = 2 then some ((fr + tr) / 2, tc) else none
  -- castling: also move the rook, and clear this colour's rights
  let board := if p = 'k' && fc = 4 && tc = 6 then
    bset (bset board fr 5 (bget board fr 7)) fr 7 none else board
  let board := if p = 'k' && fc = 4 && tc = 2 then
    bset (bset board fr 3 (bget board fr 0)) fr 0 none else board
  let castling := if p = 'k' then
    (if white then { st.castling with wK := false, wQ := false }
     else { st.castling with bK := false, bQ := false })
    else st.castling
  let castling := clearRight castling (rookRightAt fr fc)
  let castling := clearRight castling (rookRightAt tr tc)
  let board := bset (bset board tr tc (bget board fr fc)) fr fc none
  let board := if p = 'p' && (tr = 0 || tr = 7) then
    (let promPiece := promotion.getD (if white then 'Q' else 'q')
     bset board tr tc (some (if white then promPiece.toUpper else promPiece.toLower)))
    else board
  let halfmove := if p = 'p' || (bget st.board tr tc).isSome then 0
    else st.halfmove + 1
  { board := board
    turn := if white then ['b'] else ['w']
    castling := castling
    enPassant := enPassant
    halfmove := halfmove
    fullmove := if ¬ white then st.fullmove + 1 else st.fullmove }

/-- `findKing(board, white)`. -/
def findKing (board : List (List (Option Char))) (white : Bool) :
    Option (Int × Int) :=
  (List.range 8).findSome? (fun r => (List.range 8).findSome? (fun c =>
    if bget board r c = some (if white then 'K' else 'k')
    then some ((r : Int), (c : Int)) else none))

/-- `isInCheck(board, state, white)` (the en-passant field is irrelevant, as
`isSquareAttacked` blanks it). -/
def isInCheckB (board : List (List (Option Char))) (white : Bool) : Bool :=
  match findKing board white with
  | none => false
  | some k => isSquareAttacked board k.1 k.2 (¬ white)

/-- `legalMovesFor(board, state, r, c)`: candidates whose application leaves
the mover's own king unattacked. -/
def legalMovesFor (st : ChessState) (r c : Int) : List (Int × Int) :=
  match bget st.board r c with
  | none => []
  | some piece =>
    let white := isWhiteP piece
    (getCandidateMoves st r c).filter (fun m =>
      let promotion := if piece.toLower = 'p' && (m.1 = 0 || m.1 = 7) then
        some (if white then 'Q' else 'q') else none
      let st' := chessApplyMove st r c m.1 m.2 promotion
      ¬ isInCheckB st'.board white)

/-- `hasAnyLegalMove(board, state, white)`. -/
def hasAnyLegalMove (st : ChessState) (white : Bool) : Bool :=
  (List.range 8).any (fun r => (List.range 8).any (fun c =>
    match bget st.board r c with
    | none => false
    | some p => isWhiteP p = white && (legalMovesFor st r c ≠ [])))

/-- `isGameOver(board, state)`. -/
def chessIsGameOver (st : ChessState) : Bool :=
  ¬ hasAnyLegalMove st (st.turn = ['w'])

/-- `inCheck()` of the engine. -/
def chessInCheck (st : ChessState) : Bool :=
  isInCheckB st.board (st.turn = ['w'])

/-- `winner()`: `null` while the game is not over, the opposite colour on
checkmate, `draw` on stalemate. -/
def chessWinner (st : ChessState) : Option String :=
  if ¬ chessIsGameOver st then none
  else if chessInCheck st then
    (if st.turn = ['w'] then some "black" else some "white")
  else some "draw"

/-- The side to move has some legal move (the property `hasAnyLegalMove`
scans for): a square of its colour with a non-empty legal-move list. -/
def HasLegalMove (st : ChessState) : Prop :=
  ∃ r : Nat, r < 8 ∧ ∃ c : Nat, c < 8 ∧ ∃ piece,
    bget st.board r c = some piece ∧
    isWhiteP piece = decide (st.turn = ['w']) ∧
    legalMovesFor st r c ≠ []

/-! ### Xiangqi FEN (`src/engine/xiangqi.js`) -/

/-- A xiangqi position: 10×9 board, side to move. -/
structure XqState where
  board : List (List (Option Char))
  turn : List Char
  deriving Repr, DecidableEq

/-- `boardToFen(board, turn)` for xiangqi. -/
def xqBoardToFen (st : XqState) : List Char :=
  jsJoin '/' (st.board.map rowToFen) ++ ' ' :: st.turn

/-- `parseFen(fen)` for xiangqi (`turn || 'w'`). -/
def xqParseFen (fen : List Char) : XqState :=
  let parts := splitOnChar ' ' fen
  { board := (splitOnChar '/' (parts.getD 0 [])).map parseRowL
    turn := jsOrField (parts.getD 1 []) ['w'] }

/-! ### Well-formedness checkers for FEN round-trips -/

/-- A chess square: empty or one of the twelve piece letters. -/
def chessCellOk (cell : Option Char) : Bool :=
  match cell with
  | none => true
  | some ch => ['K','Q','R','B','N','P','k','q','r','b','n','p'].contains ch

/-- A xiangqi square: empty or one of the fourteen piece letters. -/
def xqCellOk (cell : Option Char) : Bool :=
  match cell with
  | none => true
  | some ch => ['K','A','B','N','R','C','P','k','a','b','n','r','c','p'].contains ch

/-- Well-formedness of a chess position: 8×8 board of chess squares, turn
`w`/`b`, en-passant target in bounds, fullmove at least 1 (all true of every
position reachable by legal play). -/
def chessWF (st : ChessState) : Bool :=
  st.board.length = 8 &&
  st.board.all (fun row => row.length = 8 && row.all chessCellOk) &&
  (st.turn = ['w'] || st.turn = ['b']) &&
  (match st.enPassant with
   | none => true
   | some rc => 0 ≤ rc.1 && rc.1 ≤ 7 && 0 ≤ rc.2 && rc.2 ≤ 7) &&
  1 ≤ st.fullmove

/-- Well-formedness of a xiangqi position: 10×9 board, turn `w`/`b`. -/
def xqWF (st : XqState) : Bool :=
  st.board.length = 10 &&
  st.board.all (fun row => row.length = 9 && row.all xqCellOk) &&
  (st.turn = ['w'] || st.turn = ['b'])

/-! ### Concrete instances used by the counterexamples and evaluations -/

/-- A four-colour (Big Two) room whose two seats are taken. -/
def c1Room : Room :=
  { players := [⟨some 1, "Ann", "south"⟩, ⟨some 2, "Ben", "west"⟩]
    spectators := []
    colors := ["south", "west", "north", "east"]
    deleteTimer := false }

/-- A two-seat room with both connections live. -/
def c7Room : Room :=
  { players := [⟨some 1, "Ann", "red"⟩, ⟨some 2, "Ben", "black"⟩]
    spectators := []
    colors := ["red", "black"]
    deleteTimer := false }

/-- The identity deck: cards dealt in id order, so seat 0 holds every
diamond `0, 4, …, 48`. -/
def idDeck : List Nat := List.range 52

/-- The Big Two game after `play(0, [0, 0])` on the identity deal. -/
def c2State : CdiState := (cdiPlay (cdiCreateGame idDeck) 0 [0, 0]).2

/-- One Big Two round on the identity deal: seat 0 plays the single diamond
`4k`, then seats 1, 2 and 3 pass, which clears the table back to seat 0. -/
def cdiCycle (s : CdiState) (k : Nat) : CdiState :=
  (cdiPass (cdiPass (cdiPass (cdiPlay s 0 [4 * k]).2 1).2 2).2 3).2

/-- The finished game: after twelve such rounds seat 0 plays its last card
`48` and wins; the table combo stays on the table, owned by seat 0, whose
turn it still is. -/
def cdiFinal : CdiState :=
  (cdiPlay ((List.range 12).foldl cdiCycle (cdiCreateGame idDeck)) 0 [48]).2

/-- A Bingo card drawn from the column ranges B 1–15, I 16–30, N 31–45,
G 46–60, O 61–75 with the FREE centre. -/
def bingoCexCard : List (List Nat) :=
  [[1, 16, 31, 46, 61],
   [2, 17, 32, 47, 62],
   [3, 18, 0, 48, 63],
   [4, 19, 34, 49, 64],
   [5, 20, 35, 50, 65]]

/-- A shuffled pool (a permutation of 1..75) whose last five entries are
popped first: the calls start 1, 16, 31, 46, 61 — the whole top row. -/
def bingoCexPool : List Nat :=
  (((List.range 75).map (fun i => i + 1)).filter
    (fun n => ¬ [1, 16, 31, 46, 61].contains n)) ++ [61, 46, 31, 16, 1]

/-- The 2-player game for the Bingo counterexample (both seats hold the same
card, which `generateCard` can produce). -/
def bingoCexGame : BingoState :=
  bingoCreateGame bingoCexPool [bingoCexCard, bingoCexCard] 2

/-- Validity of a generated Bingo card: 5×5, centre FREE, column `c` drawn
from its range. -/
def bingoCardOk (card : List (List Nat)) : Bool :=
  card.length = 5 &&
  card.all (fun row => row.length = 5) &&
  (List.range 5).all (fun r => (List.range 5).all (fun c =>
    let v := (card.getD r []).getD c 0
    if r = 2 && c = 2 then v = 0
    else 15 * c + 1 ≤ v && v ≤ 15 * (c + 1)))

/-- A Boggle state for the out-of-range-seat witness. -/
def c10State : BoggleState :=
  { board := "TEACHERSAEXAMPLE".toList
    startTime := 0
    submissions := [[], []]
    isGameOver := false
    wordSet := ["TEACH", "REACH", "CAT"] }

/-- The first Big Two play on the identity deal (a table combo is present
and the game is not over). -/
def cdiAfterFirstPlay : CdiState := (cdiPlay (cdiCreateGame idDeck) 0 [0]).2

/-- The empty chess board (no pieces at all): the side to move trivially has
no legal move, and there is no check, so this exercises the stalemate arm of
`winner()`. -/
def emptyChessState : ChessState :=
  { board := List.replicate 8 (List.replicate 8 none)
    turn := ['w']
    castling := ⟨false, false, false, false⟩
    enPassant := none
    halfmove := 0
    fullmove := 1 }

/-- The initial chess position, as parsed from `INITIAL_FEN`. -/
def chessInitial : ChessState :=
  chessParseFen "rnbqkbnr/pppppppp/8/8/8/8/PPPPPPPP/RNBQKBNR w KQkq - 0 1".toList

/-- The initial xiangqi position, as parsed from the xiangqi `INITIAL_FEN`. -/
def xqInitial : XqState :=
  xqParseFen "rnbakabnr/9/1c5c1/p1p1p1p1p/9/9/P1P1P1P1P/1C5C1/9/RNBAKABNR w".toList

/-- The room after `leaveRoom(c7Room, 1)`: Ann's seat is kept with a nulled
connection, Ben's connection is still live, and the delete timer is armed. -/
def c7RoomAfter : Room :=
  { players := [⟨none, "Ann", "red"⟩, ⟨some 2, "Ben", "black"⟩]
    spectators := []
    colors := ["red", "black"]
    deleteTimer := true }

/-- A Big Two state in which the seat to act owns the table (not reachable
in play, but exactly the situation the owner-may-not-pass rule addresses). -/
def cdiSynthOwnerTable : CdiState :=
  { hands := [[4], [5], [6], [7]]
    currentSeat := 0
    passCount := 0
    tableCombo := some ⟨"single", [8], 8⟩
    tableOwner := some 0
    roundFirst := false
    winnerSeat := none
    history := [(0, [8], false)] }

/-! ### Lemmas: Big Two reachability and the table-ownership invariant -/

theorem cdiStep_play (s : CdiState) (seat : Nat) (ids : List Nat) :
    CdiStep s (cdiPlay s seat ids).2 :=
  Or.inl ⟨seat, ids, rfl⟩

theorem cdiStep_pass (s : CdiState) (seat : Nat) :
    CdiStep s (cdiPass s seat).2 :=
  Or.inr ⟨seat, rfl⟩

theorem cdiReachable_play {deck : List Nat} {s : CdiState}
    (h : CdiReachable deck s) (seat : Nat) (ids : List Nat) :
    CdiReachable deck (cdiPlay s seat ids).2 :=
  Relation.ReflTransGen.tail h (cdiStep_play s seat ids)

theorem cdiReachable_pass {deck : List Nat} {s : CdiState}
    (h : CdiReachable deck s) (seat : Nat) :
    CdiReachable deck (cdiPass s seat).2 :=
  Relation.ReflTransGen.tail h (cdiStep_pass s seat)

theorem cdiReachable_cycle {deck : List Nat} {s : CdiState}
    (h : CdiReachable deck s) (k : Nat) :
    CdiReachable deck (cdiCycle s k) :=
  cdiReachable_pass (cdiReachable_pass (cdiReachable_pass
    (cdiReachable_play h 0 [4 * k]) 1) 2) 3

theorem cdiReachable_foldCycles {deck : List Nat} :
    ∀ (l : List Nat) {s : CdiState}, CdiReachable deck s →
      CdiReachable deck (l.foldl cdiCycle s) := by
  intro l
  induction l with
  | nil => intro s h; exact h
  | cons k rest ih => intro s h; exact ih (cdiReachable_cycle h k)

theorem cdiReachable_final : CdiReachable idDeck cdiFinal :=
  cdiReachable_play
    (cdiReachable_foldCycles (List.range 12) Relation.ReflTransGen.refl) 0 [48]

theorem cdiInv_init (deck : List Nat) : CdiInv (cdiCreateGame deck) := by
  intro h
  simp [cdiCreateGame] at h

theorem cdiInv_play (s : CdiState) (seat : Nat) (ids : List Nat)
    (h : CdiInv s) : CdiInv (cdiPlay s seat ids).2 := by
  unfold cdiPlay
  split
  · exact h
  split
  · exact h
  dsimp only
  split
  · exact h
  next hall =>
  split
  · exact h
  next combo hcls =>
  split
  · exact h
  next hfirst =>
  split
  next table htab =>
    split
    · exact h
    next hbeats =>
    split
    · intro _
      dsimp only
      exact ⟨seat, rfl, by omega, fun hw => Option.noConfusion hw⟩
    · intro _
      dsimp only
      exact ⟨seat, rfl, by omega, fun _ => by simp [nextSeat]⟩
  next htab =>
    split
    · intro _
      dsimp only
      exact ⟨seat, rfl, by omega, fun hw => Option.noConfusion hw⟩
    · intro _
      dsimp only
      exact ⟨seat, rfl, by omega, fun _ => by simp [nextSeat]⟩

theorem cdiInv_pass (s : CdiState) (seat : Nat)
    (h : CdiInv s) : CdiInv (cdiPass s seat).2 := by
  unfold cdiPass
  split
  · exact h
  next hwin =>
  split
  · exact h
  next hturn =>
  split
  · exact h
  next htab =>
  have hsome : s.tableCombo.isSome = true := by
    cases hc : s.tableCombo with
    | none => exact absurd (by simp [hc]) htab
    | some c => simp
  obtain ⟨o, ho, hpc, hcur⟩ := h hsome
  have hw : s.winnerSeat = none := by
    cases hws : s.winnerSeat with
    | none => rfl
    | some w => exact absurd (by simp [hws]) hwin
  have hcur' := hcur hw
  have hseat : seat = s.currentSeat := by omega
  dsimp only
  split
  next heq =>
    intro hci
    simp at hci
  next hne =>
    intro _
    dsimp only
    refine ⟨o, ho, by omega, fun _ => ?_⟩
    simp [nextSeat]
    omega

theorem cdiInv_reachable {deck : List Nat} {s : CdiState}
    (h : CdiReachable deck s) : CdiInv s := by
  induction h with
  | refl => exact cdiInv_init deck
  | tail _ hstep ih =>
    rcases hstep with ⟨seat, ids, rfl⟩ | ⟨seat, rfl⟩
    · exact cdiInv_play _ seat ids ih
    · exact cdiInv_pass _ seat ih

end Games

namespace Games

/-! ### Claims -/

/-- C1: the spec says `joinRoom` seats a fresh-name joiner whenever fewer
players are seated than the room's colour set has colours (4 for Big Two, up
to 8 for Bingo).  The code instead caps seats at 2 (`room.players.length <
2`): in a four-colour room with two seated players, a third fresh-name
joiner is made a spectator with colour `spectator` instead of being seated
as `north`. -/
theorem claim_C1_third_joiner_made_spectator :
    (joinRoom c1Room (some 3) "Cid").color = "spectator" ∧
    (joinRoom c1Room (some 3) "Cid").room.players.length = 2 ∧
    (joinRoom c1Room (some 3) "Cid").room.spectators = [⟨some 3, "Cid"⟩] ∧
    c1Room.players.length < c1Room.colors.length := by decide

/-- C2: the claimed invariant — hands plus discards form exactly the multiset
{0..51} in every reachable state, including plays with a repeated card id —
fails on the code: on the identity deal, `play(0, [0, 0])` is accepted as a
"pair", after which card id 0 appears twice in the discards while card id 48
(removed from the hand by `splice(indexOf(0) = -1, 1)`) has vanished. -/
theorem claim_C2_duplicate_play_breaks_conservation :
    (cdiPlay (cdiCreateGame idDeck) 0 [0, 0]).1.ok = true ∧
    (cdiAllCards c2State).count 0 = 2 ∧
    (cdiAllCards c2State).count 48 = 0 ∧
    (List.range 52).count 0 = 1 ∧ (List.range 52).count 48 = 1 := by decide

/-- C4 (counterexample): a reachable Big Two state in which a table combo is
present and the seat to act owns the table — reached when seat 0 wins by
playing its last card — where `pass` fails with reason `Game over`, not the
claimed `You own the table — play or wait`; and on a (synthetic) running
state with the same configuration the exposed `pass` (`passFixed`) simply
accepts the pass and mutates the state, because it has no owner check. -/
theorem claim_C4_counterexample :
    CdiReachable idDeck cdiFinal ∧
    cdiFinal.tableCombo.isSome = true ∧
    cdiFinal.tableOwner = some cdiFinal.currentSeat ∧
    (cdiPass cdiFinal cdiFinal.currentSeat).1 = ⟨false, "Game over"⟩ ∧
    cdiSynthOwnerTable.tableCombo.isSome = true ∧
    cdiSynthOwnerTable.tableOwner = some cdiSynthOwnerTable.currentSeat ∧
    (cdiPass cdiSynthOwnerTable 0).1.ok = true ∧
    (cdiPass cdiSynthOwnerTable 0).2 ≠ cdiSynthOwnerTable :=
  ⟨cdiReachable_final, by decide, by decide, by decide, by decide, by decide,
   by decide, by decide⟩

/-- C4 (amended): the exposed `pass` (`passFixed`) has no owner check, but in
every reachable state in which the game is still running and a table combo
is present, the seat to act is never the table's owner (it trails the owner
by `1 + passCount < 4` seats), so the owner never gets to pass; only after a
winning play does the owner face the table again, and every `pass` then
fails with `Game over`. -/
theorem claim_C4_owner_never_to_move_while_running :
    ∀ (deck : List Nat) (s : CdiState), CdiReachable deck s →
      s.winnerSeat = none → s.tableCombo.isSome = true →
      s.tableOwner ≠ some s.currentSeat := by
  intro deck s h hw ht heq
  obtain ⟨o, ho, hpc, hcur⟩ := cdiInv_reachable h ht
  rw [ho] at heq
  have : o = s.currentSeat := by exact Option.some.inj heq
  have hc := hcur hw
  omega

/-- C4 (witness): the owner-invariant applied to the reachable state after
the first play of the identity-deck game. -/
theorem claim_C4_witness :
    cdiAfterFirstPlay.tableOwner ≠ some cdiAfterFirstPlay.currentSeat :=
  claim_C4_owner_never_to_move_while_running idDeck cdiAfterFirstPlay
    (Relation.ReflTransGen.single (cdiStep_play _ 0 [0]))
    (by decide) (by decide)

/-- C6: the claim says `getLeaderboard()` with no family aggregates every
recorded win including `bingo` wins.  The code iterates the fixed list
`GAME_TYPES = ['xiangqi', 'chess', 'chordaidi']`, so a `bingo` win recorded
by the dispatcher is omitted from the all-families aggregation even though
`getLeaderboard('bingo')` can see it. -/
theorem claim_C6_bingo_omitted_from_aggregate :
    getLeaderboard (recordWin [] "bingo" "alice") none 10 = [] ∧
    getLeaderboard (recordWin [] "bingo" "alice") (some "bingo") 10 =
      [("alice", 1)] ∧
    ¬ "bingo" ∈ GAME_TYPES := by decide

/-- C7 (counterexample): `leaveRoom` arms the deletion timer even when
another seat still holds a live connection — Ann's disconnect arms the timer
although Ben is still connected, contradicting the claim that the timer is
armed only when no seat holds a live connection. -/
theorem claim_C7_counterexample :
    leaveRoom c7Room 1 = LeaveResult.playerLeft c7RoomAfter "Ann" ∧
    c7RoomAfter.deleteTimer = true ∧
    c7RoomAfter.players.any (fun p => p.socketId ≠ none) = true := by decide

/-- C7 (amended): every seat disconnect arms (re-arms) the deletion timer
regardless of remaining live seats; the timer's expiry callback deletes the
room only when no seat holds a live connection at that moment; and any
`joinRoom` cancels a pending timer. -/
theorem claim_C7_timer_behaviour :
    ∀ (room : Room) (sid : Nat),
      (∀ room' name, leaveRoom room sid = LeaveResult.playerLeft room' name →
        room'.deleteTimer = true) ∧
      (∀ (socketId : Option Nat) (name : String),
        (joinRoom room socketId name).room.deleteTimer = false) ∧
      (cleanupFire room = none ↔
        room.players.all (fun p => p.socketId = none) = true) := by
  intro room sid
  refine ⟨?_, ?_, ?_⟩
  · intro room' name h
    unfold leaveRoom at h
    cases hf : room.players.findIdx? (fun p => p.socketId = some sid) with
    | some i =>
      rw [hf] at h
      cases h
      rfl
    | none =>
      rw [hf] at h
      cases hg : room.spectators.findIdx? (fun s => s.socketId = some sid) with
      | some j => rw [hg] at h; cases h
      | none => rw [hg] at h; cases h
  · intro socketId name
    unfold joinRoom
    dsimp only
    split
    · rfl
    · split
      · rfl
      · rfl
  · by_cases hany : room.players.any (fun p => p.socketId ≠ none) = true
    · simp only [cleanupFire, hany, if_true]
      simp only [List.any_eq_true] at hany
      obtain ⟨p, hp, hne⟩ := hany
      simp only [List.all_eq_true]
      constructor
      · intro hx; cases hx
      · intro hall
        exact absurd (by simpa using hall p hp) (by simpa using hne)
    · simp only [cleanupFire, hany, if_false]
      simp only [List.any_eq_true] at hany
      push_neg at hany
      simp only [List.all_eq_true]
      constructor
      · intro _ p hp
        have := hany p hp
        simpa using this
      · intro _; rfl

/-- C7 (witness): the timer behaviour applied to the concrete two-seat room:
Ann's leave arms the timer, a join cancels it. -/
theorem claim_C7_witness :
    c7RoomAfter.deleteTimer = true ∧
    (joinRoom c7Room (some 9) "Zoe").room.deleteTimer = false :=
  ⟨(claim_C7_timer_behaviour c7Room 1).1 c7RoomAfter "Ann" (by decide),
   (claim_C7_timer_behaviour c7Room 1).2.1 (some 9) "Zoe"⟩

/-- C5 (counterexample): a concrete 2-player Bingo game (valid cards, the
pool a permutation of 1..75) in which the fifth call completes the top row
of both cards: the game ends there with both seats recorded with pattern
`row0` only — no `fullhouse` — and the sixth call already fails with `Game
is over`, so 75 successful calls are impossible. -/
theorem claim_C5_counterexample :
    bingoCardOk bingoCexCard = true ∧
    jsSort (fun a b => a ≤ b) bingoCexPool = (List.range 75).map (· + 1) ∧
    (bingoRun bingoCexGame 5).isGameOver = true ∧
    (bingoRun bingoCexGame 5).winners = [⟨0, ["row0"]⟩, ⟨1, ["row0"]⟩] ∧
    (callNumber (bingoRun bingoCexGame 5) 0).1 = ⟨false, "Game is over", none⟩ := by
  decide

/-- C5 (amended): `callNumber` succeeds only while the game is not over; a
successful call appends exactly the seats newly completing a pattern (with
their pattern types) to the winners list and ends the game precisely when
that list of new winners is non-empty; once over, every further call by the
caller fails with `Game is over` and leaves the state unchanged. -/
theorem claim_C5_call_stops_at_first_win :
    ∀ st : BingoState,
      (st.isGameOver = true →
        callNumber st 0 = (⟨false, "Game is over", none⟩, st)) ∧
      ((callNumber st 0).1.ok = true →
        st.isGameOver = false ∧
        (callNumber st 0).2.winners = st.winners ++
          bingoNewWinners
            (bingoMark st.cards st.marked (st.pool.getLast?.getD 0) st.playerCount)
            st.winners st.playerCount ∧
        ((callNumber st 0).2.isGameOver = true ↔
          bingoNewWinners
            (bingoMark st.cards st.marked (st.pool.getLast?.getD 0) st.playerCount)
            st.winners st.playerCount ≠ [])) := by
  intro st
  constructor
  · intro hover
    simp [callNumber, hover]
  · intro hok
    by_cases h1 : st.isGameOver
    · exfalso; simp [callNumber, h1] at hok
    by_cases h2 : st.pool.length = 0
    · exfalso; simp [callNumber, h1, h2] at hok
    refine ⟨by simpa using h1, ?_, ?_⟩
    · simp [callNumber, h1, h2]
    · simp [callNumber, h1, h2]

/-- C5 (witness): the stop-at-first-win behaviour applied to the concrete
counterexample game. -/
theorem claim_C5_witness :
    callNumber (bingoRun bingoCexGame 5) 0 =
      (⟨false, "Game is over", none⟩, bingoRun bingoCexGame 5) ∧
    bingoCexGame.isGameOver = false :=
  ⟨(claim_C5_call_stops_at_first_win (bingoRun bingoCexGame 5)).1 (by decide),
   ((claim_C5_call_stops_at_first_win bingoCexGame).2 (by decide)).1⟩

theorem hasAnyLegalMove_iff (st : ChessState) (white : Bool) :
    hasAnyLegalMove st white = true ↔
      ∃ r : Nat, r < 8 ∧ ∃ c : Nat, c < 8 ∧ ∃ p,
        bget st.board r c = some p ∧ isWhiteP p = white ∧
        legalMovesFor st r c ≠ [] := by
  unfold hasAnyLegalMove
  simp only [List.any_eq_true, List.mem_range]
  constructor
  · rintro ⟨r, hr, c, hc, hm⟩
    cases hb : bget st.board r c with
    | none => rw [hb] at hm; simp at hm
    | some p =>
      rw [hb] at hm
      simp only [Bool.and_eq_true, decide_eq_true_eq] at hm
      exact ⟨r, hr, c, hc, p, hb, hm.1, hm.2⟩
  · rintro ⟨r, hr, c, hc, p, hb, hw, hne⟩
    refine ⟨r, hr, c, hc, ?_⟩
    rw [hb]
    simp [hw, hne]

/-- C3: `isGameOver()` is true exactly when the side to move has no legal
move, and `winner()` is `null` while the game is not over, the opposite
colour when the stuck side is in check (checkmate), and `draw` otherwise
(stalemate).  Proved for every position, hence for every reachable one. -/
theorem claim_C3_game_over_and_winner :
    ∀ st : ChessState,
      (chessIsGameOver st = true ↔ ¬ HasLegalMove st) ∧
      (chessWinner st = none ↔ chessIsGameOver st = false) ∧
      (chessIsGameOver st = true →
        chessWinner st = (if chessInCheck st = true then
          (if st.turn = ['w'] then some "black" else some "white")
          else some "draw")) := by
  intro st
  have key : hasAnyLegalMove st (st.turn = ['w']) = true ↔ HasLegalMove st :=
    hasAnyLegalMove_iff st (decide (st.turn = ['w']))
  refine ⟨?_, ?_, ?_⟩
  · rw [← key]
    unfold chessIsGameOver
    cases h : hasAnyLegalMove st (st.turn = ['w']) <;> simp
  · by_cases hgo : chessIsGameOver st = true
    · have hne : chessWinner st ≠ none := by
        unfold chessWinner
        rw [if_neg (by simp [hgo])]
        split
        · split <;> simp
        · simp
      simp [hne, hgo]
    · unfold chessWinner
      rw [if_pos (by simp [hgo])]
      simp [Bool.not_eq_true] at hgo
      simp [hgo]
  · intro hgo
    simp [chessWinner, hgo]

/-- C10: `submitWord(seat, word)` returns a result for every in-range seat,
and for any out-of-range seat (for example −1, a spectator's seat) and a
word passing the round-over, time, length and letters-only checks it reaches
`submissions[seat].has(w)` on an `undefined` entry and throws (modelled as
`none`) instead of returning `{ok, reason}`. -/
theorem claim_C10_submitWord_seat_precondition :
    ∀ (st : BoggleState) (seat : Int) (word : String) (now : Nat),
      ((0 ≤ seat ∧ seat.toNat < st.submissions.length) →
        (submitWord st seat word now).isSome = true) ∧
      (st.isGameOver = false → timeLeft st now ≠ 0 →
        3 ≤ (jsTrim (jsToUpper word.toList)).length →
        ((jsTrim (jsToUpper word.toList)).all (fun c => 'A' ≤ c && c ≤ 'Z')) = true →
        ¬ (0 ≤ seat ∧ seat.toNat < st.submissions.length) →
        submitWord st seat word now = none) := by
  intro st seat word now
  constructor
  · intro hin
    unfold submitWord
    simp only [seatSubs, if_pos hin]
    split
    · simp
    split
    · simp
    split
    · simp
    split
    · simp
    split
    · simp
    split
    · simp
    split
    · simp
    simp
  · intro h1 h2 h3 h4 hout
    unfold submitWord
    simp only [h1, Bool.false_eq_true, if_false]
    rw [if_neg h2]
    rw [if_neg ?hlen]
    case hlen =>
      show ¬ (jsTrim (jsToUpper word.toList)).length < 3
      omega
    rw [if_neg ?hlet]
    case hlet =>
      show ¬¬(decide ((jsTrim (jsToUpper word.toList)).length > 0) &&
        (jsTrim (jsToUpper word.toList)).all
          fun c => decide ('A' ≤ c) && decide (c ≤ 'Z')) = true
      simp only [not_not, Bool.and_eq_true, decide_eq_true_eq]
      exact ⟨by omega, h4⟩
    simp only [seatSubs, if_neg hout]

/-- C3 (witness): the characterisation applied to the empty board, whose
side to move has no legal move and is not in check (`winner()` = `draw`). -/
theorem claim_C3_witness :
    chessWinner emptyChessState =
      (if chessInCheck emptyChessState = true then
        (if emptyChessState.turn = ['w'] then some "black" else some "white")
        else some "draw") :=
  (claim_C3_game_over_and_winner emptyChessState).2.2 (by decide)

/-- C10 (witness): on a concrete round state with the word `CAT`, an
in-range seat gets a result and the spectator seat −1 throws. -/
theorem claim_C10_witness :
    (submitWord c10State 0 "CAT" 0).isSome = true ∧
    submitWord c10State (-1) "CAT" 0 = none :=
  ⟨(claim_C10_submitWord_seat_precondition c10State 0 "CAT" 0).1 (by decide),
   (claim_C10_submitWord_seat_precondition c10State (-1) "CAT" 0).2
     (by decide) (by decide) (by decide) (by decide) (by decide)⟩

end Games

namespace Games

/-! ### Lemmas: decimal digits -/

theorem isDigitCh_jsDigitChar {n : Nat} (h : n ≤ 9) :
    isDigitCh (jsDigitChar n) = true := by
  interval_cases n <;> decide

theorem digitVal_jsDigitChar {n : Nat} (h : n ≤ 9) :
    digitVal (jsDigitChar n) = n := by
  interval_cases n <;> decide

theorem natDigitsGo_digits :
    ∀ (fuel n : Nat), n < fuel →
      ∀ ch ∈ natDigitsGo fuel n, isDigitCh ch = true := by
  intro fuel
  induction fuel with
  | zero => intro n h; omega
  | succ f ih =>
    intro n h ch hch
    by_cases h10 : n < 10
    · simp only [natDigitsGo, if_pos h10, List.mem_singleton] at hch
      subst hch
      exact isDigitCh_jsDigitChar (by omega)
    · simp only [natDigitsGo, if_neg h10, List.mem_append, List.mem_singleton] at hch
      rcases hch with hch | hch
      · exact ih (n / 10) (by omega) ch hch
      · subst hch
        exact isDigitCh_jsDigitChar (by omega)

theorem natDigitsGo_ne_nil :
    ∀ (fuel n : Nat), n < fuel → natDigitsGo fuel n ≠ [] := by
  intro fuel
  induction fuel with
  | zero => intro n h; omega
  | succ f ih =>
    intro n h
    by_cases h10 : n < 10
    · simp [natDigitsGo, if_pos h10]
    · simp only [natDigitsGo, if_neg h10]
      simp

theorem natDigitsGo_foldl :
    ∀ (fuel n a : Nat), n < fuel →
      (natDigitsGo fuel n).foldl (fun acc ch => acc * 10 + digitVal ch) a =
        a * 10 ^ (natDigitsGo fuel n).length + n := by
  intro fuel
  induction fuel with
  | zero => intro n a h; omega
  | succ f ih =>
    intro n a h
    by_cases h10 : n < 10
    · simp only [natDigitsGo, if_pos h10, List.foldl_cons, List.foldl_nil,
        List.length_singleton]
      rw [digitVal_jsDigitChar (by omega)]
      ring
    · simp only [natDigitsGo, if_neg h10, List.foldl_append, List.foldl_cons,
        List.foldl_nil, List.length_append, List.length_singleton]
      rw [ih (n / 10) a (by omega)]
      rw [digitVal_jsDigitChar (by omega : n % 10 ≤ 9)]
      have : (a * 10 ^ (natDigitsGo f (n / 10)).length + n / 10) * 10 + n % 10 =
          a * (10 ^ (natDigitsGo f (n / 10)).length * 10) + (n / 10 * 10 + n % 10) := by
        ring
      rw [this, pow_succ]
      omega

theorem parseIntL_natDigits (n : Nat) : parseIntL (natDigits n) = some n := by
  unfold parseIntL natDigits
  have hd := natDigitsGo_digits (n + 1) n (by omega)
  have hw : (natDigitsGo (n + 1) n).takeWhile isDigitCh = natDigitsGo (n + 1) n := by
    apply List.takeWhile_eq_self_iff.mpr
    intro ch hch
    exact hd ch hch
  rw [hw]
  have hne := natDigitsGo_ne_nil (n + 1) n (by omega)
  rw [if_neg (by simpa [List.isEmpty_iff] using hne)]
  rw [natDigitsGo_foldl (n + 1) n 0 (by omega)]
  simp

theorem natDigits_small {n : Nat} (h : n < 10) :
    natDigits n = [jsDigitChar n] := by
  simp [natDigits, natDigitsGo, if_pos h]

end Games

namespace Games

/-! ### Lemmas: FEN rows and field splitting -/

theorem parseRowL_rowToFenAux :
    ∀ (row : List (Option Char)) (e : Nat), e + row.length ≤ 9 →
      (∀ ch, some ch ∈ row → isDigitCh ch = false) →
      parseRowL (rowToFenAux row e) = List.replicate e none ++ row := by
  intro row
  induction row with
  | nil =>
    intro e hb _
    cases e with
    | zero => simp [rowToFenAux, parseRowL]
    | succ e' =>
      rw [rowToFenAux, natDigits_small (by omega)]
      simp only [parseRowL, isDigitCh_jsDigitChar (by omega : e' + 1 ≤ 9), if_pos]
      rw [digitVal_jsDigitChar (by omega : e' + 1 ≤ 9)]
  | cons cell rest ih =>
    intro e hb hch
    cases cell with
    | none =>
      rw [rowToFenAux]
      rw [ih (e + 1) (by simp at hb ⊢; omega)
        (fun ch hm => hch ch (by simp [hm]))]
      rw [List.replicate_succ']
      simp
    | some ch =>
      have hdig : isDigitCh ch = false := hch ch (by simp)
      cases e with
      | zero =>
        rw [rowToFenAux]
        simp only [parseRowL, hdig, Bool.false_eq_true, if_false]
        rw [ih 0 (by simp at hb ⊢; omega)
          (fun ch' hm => hch ch' (by simp [hm]))]
        simp
      | succ e' =>
        rw [rowToFenAux, natDigits_small (by omega)]
        simp only [List.singleton_append, parseRowL,
          isDigitCh_jsDigitChar (by omega : e' + 1 ≤ 9), if_pos, hdig,
          Bool.false_eq_true, if_false]
        rw [digitVal_jsDigitChar (by omega : e' + 1 ≤ 9)]
        rw [ih 0 (by simp at hb ⊢; omega)
          (fun ch' hm => hch ch' (by simp [hm]))]
        simp

theorem parseRowL_rowToFen (row : List (Option Char)) (hb : row.length ≤ 9)
    (hch : ∀ ch, some ch ∈ row → isDigitCh ch = false) :
    parseRowL (rowToFen row) = row := by
  rw [rowToFen, parseRowL_rowToFenAux row 0 (by omega) hch]
  simp

theorem rowToFenAux_chars :
    ∀ (row : List (Option Char)) (e : Nat) (ch' : Char),
      ch' ∈ rowToFenAux row e → isDigitCh ch' = true ∨ some ch' ∈ row := by
  intro row
  induction row with
  | nil =>
    intro e ch' h
    cases e with
    | zero => simp [rowToFenAux] at h
    | succ e' =>
      rw [rowToFenAux] at h
      exact Or.inl (natDigitsGo_digits (e' + 2) (e' + 1) (by omega) ch' h)
  | cons cell rest ih =>
    intro e ch' h
    cases cell with
    | none =>
      rw [rowToFenAux] at h
      rcases ih (e + 1) ch' h with hd | hm
      · exact Or.inl hd
      · exact Or.inr (by simp [hm])
    | some ch =>
      cases e with
      | zero =>
        rw [rowToFenAux] at h
        rcases List.mem_cons.mp h with rfl | h'
        · exact Or.inr (by simp)
        · rcases ih 0 ch' h' with hd | hm
          · exact Or.inl hd
          · exact Or.inr (by simp [hm])
      | succ e' =>
        rw [rowToFenAux] at h
        rcases List.mem_append.mp h with h' | h'
        · exact Or.inl (natDigitsGo_digits (e' + 2) (e' + 1) (by omega) ch' h')
        · rcases List.mem_cons.mp h' with rfl | h''
          · exact Or.inr (by simp)
          · rcases ih 0 ch' h'' with hd | hm
            · exact Or.inl hd
            · exact Or.inr (by simp [hm])

theorem jsJoin_chars (sep : Char) :
    ∀ (fields : List (List Char)) (ch : Char), ch ∈ jsJoin sep fields →
      ch = sep ∨ ∃ f ∈ fields, ch ∈ f := by
  intro fields
  induction fields with
  | nil => intro ch h; simp [jsJoin] at h
  | cons f rest ih =>
    intro ch h
    cases rest with
    | nil =>
      have hj : jsJoin sep [f] = f := rfl
      rw [hj] at h
      exact Or.inr ⟨f, by simp, h⟩
    | cons g rest' =>
      have hj : jsJoin sep (f :: g :: rest') = f ++ sep :: jsJoin sep (g :: rest') := rfl
      rw [hj] at h
      rcases List.mem_append.mp h with h' | h'
      · exact Or.inr ⟨f, by simp, h'⟩
      · rcases List.mem_cons.mp h' with rfl | h''
        · exact Or.inl rfl
        · rcases ih ch h'' with hs | ⟨f', hf', hm⟩
          · exact Or.inl hs
          · exact Or.inr ⟨f', by simp [hf'], hm⟩

theorem splitOnChar_ne_nil (sep : Char) :
    ∀ (l : List Char), splitOnChar sep l ≠ [] := by
  intro l
  cases l with
  | nil => simp [splitOnChar]
  | cons c rest =>
    rw [splitOnChar]
    cases h : splitOnChar sep rest with
    | nil => simp
    | cons g gs =>
      by_cases hc : c = sep <;> simp [hc]

theorem splitOnChar_no_sep (sep : Char) :
    ∀ (f : List Char), sep ∉ f → splitOnChar sep f = [f] := by
  intro f
  induction f with
  | nil => intro _; rfl
  | cons c rest ih =>
    intro h
    have hc : ¬ c = sep := fun hceq => h (by simp [hceq])
    rw [splitOnChar, ih (fun hm => h (by simp [hm]))]
    simp [hc]

theorem splitOnChar_append (sep : Char) :
    ∀ (f t : List Char), sep ∉ f →
      splitOnChar sep (f ++ sep :: t) = f :: splitOnChar sep t := by
  intro f
  induction f with
  | nil =>
    intro t _
    simp only [List.nil_append]
    rw [splitOnChar]
    cases h : splitOnChar sep t with
    | nil => exact absurd h (splitOnChar_ne_nil sep t)
    | cons g gs => simp
  | cons c rest ih =>
    intro t h
    have hc : ¬ c = sep := fun hceq => h (by simp [hceq])
    simp only [List.cons_append]
    rw [splitOnChar, ih t (fun hm => h (by simp [hm]))]
    simp [hc]

theorem splitOnChar_jsJoin (sep : Char) :
    ∀ (fields : List (List Char)), fields ≠ [] →
      (∀ f ∈ fields, sep ∉ f) →
      splitOnChar sep (jsJoin sep fields) = fields := by
  intro fields
  induction fields with
  | nil => intro h; exact absurd rfl h
  | cons f rest ih =>
    intro _ hsep
    cases rest with
    | nil =>
      have hj : jsJoin sep [f] = f := rfl
      rw [hj]
      exact splitOnChar_no_sep sep f (hsep f (by simp))
    | cons g rest' =>
      have hj : jsJoin sep (f :: g :: rest') = f ++ sep :: jsJoin sep (g :: rest') := rfl
      rw [hj]
      rw [splitOnChar_append sep f (jsJoin sep (g :: rest'))
        (hsep f (by simp))]
      rw [ih (by simp) (fun f' hf' => hsep f' (by simp [hf']))]

end Games

namespace Games

theorem map_eq_self_of_mem {α : Type} {l : List α} {f : α → α}
    (h : ∀ x ∈ l, f x = x) : l.map f = l := by
  induction l with
  | nil => rfl
  | cons a rest ih =>
    simp only [List.map_cons, h a (by simp), ih (fun x hx => h x (by simp [hx]))]

theorem isDigitCh_ne_space {ch : Char} (h : isDigitCh ch = true) : ch ≠ ' ' := by
  rintro rfl
  simp [isDigitCh] at h

theorem isDigitCh_ne_slash {ch : Char} (h : isDigitCh ch = true) : ch ≠ '/' := by
  rintro rfl
  simp [isDigitCh] at h

theorem jsOrNum_some_zero (n : Nat) : jsOrNum (some n) 0 = n := by
  cases n <;> simp [jsOrNum]

theorem jsOrNum_some_one {n : Nat} (h : 1 ≤ n) : jsOrNum (some n) 1 = n := by
  have he : jsOrNum (some n) 1 = if n = 0 then 1 else n := rfl
  rw [he, if_neg (by omega)]

theorem boardField_roundtrip (rows : List (List (Option Char)))
    (hne : rows ≠ [])
    (hlen : ∀ row ∈ rows, row.length ≤ 9)
    (hch : ∀ row ∈ rows, ∀ ch, some ch ∈ row → isDigitCh ch = false ∧ ch ≠ '/') :
    (splitOnChar '/' (jsJoin '/' (rows.map rowToFen))).map parseRowL = rows := by
  rw [splitOnChar_jsJoin '/' (rows.map rowToFen) (by simpa using hne) ?_]
  · rw [List.map_map]
    exact map_eq_self_of_mem (fun row hr =>
      parseRowL_rowToFen row (hlen row hr) (fun ch hm => (hch row hr ch hm).1))
  · intro f hf
    obtain ⟨row, hr, rfl⟩ := List.mem_map.mp hf
    intro hmem
    rcases rowToFenAux_chars row 0 '/' hmem with hd | hm
    · exact isDigitCh_ne_slash hd rfl
    · exact (hch row hr '/' hm).2 rfl

theorem boardField_no_space (rows : List (List (Option Char)))
    (hch : ∀ row ∈ rows, ∀ ch, some ch ∈ row → ch ≠ ' ') :
    ' ' ∉ jsJoin '/' (rows.map rowToFen) := by
  intro hmem
  rcases jsJoin_chars '/' (rows.map rowToFen) ' ' hmem with hs | ⟨f, hf, hm⟩
  · exact absurd hs (by decide)
  · obtain ⟨row, hr, rfl⟩ := List.mem_map.mp hf
    rcases rowToFenAux_chars row 0 ' ' hm with hd | hm'
    · exact isDigitCh_ne_space hd rfl
    · exact hch row hr ' ' hm' rfl

theorem natDigits_no_space (n : Nat) : ' ' ∉ natDigits n := by
  intro h
  exact isDigitCh_ne_space (natDigitsGo_digits (n + 1) n (by omega) ' ' h) rfl

theorem ep_roundtrip :
    ∀ (r c : Int), 0 ≤ r → r ≤ 7 → 0 ≤ c → c ≤ 7 →
      ((["abcdefgh".toList.getD c.toNat ' '] ++ natDigits (8 - r).toNat) ≠ ['-'] ∧
       ((8 : Int) -
         ((parseIntL [(["abcdefgh".toList.getD c.toNat ' '] ++
            natDigits (8 - r).toNat).getD 1 ' ']).getD 0 : Nat) = r) ∧
       (jsIndexOf "abcdefgh".toList
         ((["abcdefgh".toList.getD c.toNat ' '] ++
           natDigits (8 - r).toNat).getD 0 ' ') = c)) := by
  intro r c hr0 hr7 hc0 hc7
  interval_cases r <;> interval_cases c <;> exact ⟨by decide, by decide, by decide⟩

end Games

namespace Games

theorem chessCell_props {ch : Char}
    (h : ['K','Q','R','B','N','P','k','q','r','b','n','p'].contains ch = true) :
    isDigitCh ch = false ∧ ch ≠ '/' ∧ ch ≠ ' ' := by
  rw [List.contains_eq_any_beq] at h
  simp only [List.any_eq_true, beq_iff_eq] at h
  obtain ⟨x, hx, rfl⟩ := h
  fin_cases hx <;> exact ⟨by decide, by decide, by decide⟩

theorem alpha_getD_ne_space {k : Nat} (hk : k ≤ 7) :
    "abcdefgh".toList.getD k ' ' ≠ ' ' := by
  interval_cases k <;> decide

theorem chessParseFen_boardToFen (st : ChessState) (h : chessWF st = true) :
    chessParseFen (chessBoardToFen st) = st := by
  obtain ⟨board, turn, castling, ep, half, full⟩ := st
  simp only [chessWF, Bool.and_eq_true, List.all_eq_true, Bool.or_eq_true,
    decide_eq_true_eq] at h
  obtain ⟨⟨⟨⟨h1, h2⟩, h3⟩, h4⟩, h5⟩ := h
  have hcells : ∀ row ∈ board, ∀ ch, some ch ∈ row →
      isDigitCh ch = false ∧ ch ≠ '/' ∧ ch ≠ ' ' := by
    intro row hr ch hm
    have hco := ((h2 row hr).2 (some ch) hm)
    exact chessCell_props (by simpa [chessCellOk] using hco)
  have hrowlen : ∀ row ∈ board, row.length ≤ 9 := by
    intro row hr
    have := (h2 row hr).1
    omega
  have hsplit : splitOnChar ' ' (chessBoardToFen ⟨board, turn, castling, ep, half, full⟩) =
      [jsJoin '/' (board.map rowToFen), turn, castleFieldOf castling,
       epFieldOf ep, natDigits half, natDigits full] := by
    unfold chessBoardToFen
    dsimp only
    apply splitOnChar_jsJoin
    · simp
    · intro f hf
      simp only [List.mem_cons, List.not_mem_nil, or_false] at hf
      rcases hf with rfl | rfl | rfl | rfl | rfl | rfl
      · exact boardField_no_space board (fun row hr ch hm => (hcells row hr ch hm).2.2)
      · rcases h3 with rfl | rfl <;> decide
      · obtain ⟨a, b, c, d⟩ := castling
        cases a <;> cases b <;> cases c <;> cases d <;> decide
      · cases ep with
        | none => decide
        | some rc =>
          rw [epFieldOf]
          simp only at h4
          intro hmem
          rcases List.mem_append.mp hmem with hmem' | hmem'
          · simp only [List.mem_singleton] at hmem'
            have hc7 : rc.2.toNat ≤ 7 := by
              simp only [Bool.and_eq_true, decide_eq_true_eq] at h4
              omega
            exact alpha_getD_ne_space hc7 hmem'.symm
          · exact natDigits_no_space _ hmem'
      · exact natDigits_no_space half
      · exact natDigits_no_space full
  unfold chessParseFen
  rw [hsplit]
  simp only [List.getD_cons_zero, List.getD_cons_succ]
  simp only [ChessState.mk.injEq]
  refine ⟨?_, ?_, ?_, ?_, ?_, ?_⟩
  · exact boardField_roundtrip board
      (fun he => by rw [he] at h1; simp at h1) hrowlen
      (fun row hr ch hm => ⟨(hcells row hr ch hm).1, (hcells row hr ch hm).2.1⟩)
  · rcases h3 with rfl | rfl <;> decide
  · obtain ⟨a, b, c, d⟩ := castling
    cases a <;> cases b <;> cases c <;> cases d <;> decide
  · cases ep with
    | none => simp [epFieldOf, jsOrField]
    | some rc =>
      rw [epFieldOf]
      simp only [Bool.and_eq_true, decide_eq_true_eq] at h4
      obtain ⟨⟨⟨hr0, hr7⟩, hc0⟩, hc7⟩ := h4
      obtain ⟨hne, hparse, hidx⟩ := ep_roundtrip rc.1 rc.2 hr0 hr7 hc0 hc7
      have hfield : jsOrField
          (["abcdefgh".toList.getD rc.2.toNat ' '] ++ natDigits (8 - rc.1).toNat)
          ['-'] =
          ["abcdefgh".toList.getD rc.2.toNat ' '] ++ natDigits (8 - rc.1).toNat := by
        unfold jsOrField
        rw [if_neg (by simp)]
      simp only [hfield]
      rw [if_pos hne]
      rw [hparse, hidx]
  · rw [parseIntL_natDigits, jsOrNum_some_zero]
  · rw [parseIntL_natDigits, jsOrNum_some_one h5]

end Games

namespace Games

theorem xqCell_props {ch : Char}
    (h : ['K','A','B','N','R','C','P','k','a','b','n','r','c','p'].contains ch = true) :
    isDigitCh ch = false ∧ ch ≠ '/' ∧ ch ≠ ' ' := by
  rw [List.contains_eq_any_beq] at h
  simp only [List.any_eq_true, beq_iff_eq] at h
  obtain ⟨x, hx, rfl⟩ := h
  fin_cases hx <;> exact ⟨by decide, by decide, by decide⟩

theorem xqParseFen_boardToFen (st : XqState) (h : xqWF st = true) :
    xqParseFen (xqBoardToFen st) = st := by
  obtain ⟨board, turn⟩ := st
  simp only [xqWF, Bool.and_eq_true, List.all_eq_true, Bool.or_eq_true,
    decide_eq_true_eq] at h
  obtain ⟨⟨h1, h2⟩, h3⟩ := h
  have hcells : ∀ row ∈ board, ∀ ch, some ch ∈ row →
      isDigitCh ch = false ∧ ch ≠ '/' ∧ ch ≠ ' ' := by
    intro row hr ch hm
    have hco := ((h2 row hr).2 (some ch) hm)
    exact xqCell_props (by simpa [xqCellOk] using hco)
  have hrowlen : ∀ row ∈ board, row.length ≤ 9 := by
    intro row hr
    have := (h2 row hr).1
    omega
  have hform : xqBoardToFen ⟨board, turn⟩ =
      jsJoin ' ' [jsJoin '/' (board.map rowToFen), turn] := rfl
  have hsplit : splitOnChar ' ' (xqBoardToFen ⟨board, turn⟩) =
      [jsJoin '/' (board.map rowToFen), turn] := by
    rw [hform]
    apply splitOnChar_jsJoin
    · simp
    · intro f hf
      simp only [List.mem_cons, List.not_mem_nil, or_false] at hf
      rcases hf with rfl | rfl
      · exact boardField_no_space board (fun row hr ch hm => (hcells row hr ch hm).2.2)
      · rcases h3 with rfl | rfl <;> decide
  unfold xqParseFen
  rw [hsplit]
  simp only [List.getD_cons_zero, List.getD_cons_succ]
  simp only [XqState.mk.injEq]
  constructor
  · exact boardField_roundtrip board
      (fun he => by rw [he] at h1; simp at h1) hrowlen
      (fun row hr ch hm => ⟨(hcells row hr ch hm).1, (hcells row hr ch hm).2.1⟩)
  · rcases h3 with rfl | rfl <;> decide

/-- C8: FEN serialisation followed by parsing is the identity on every
well-formed chess position (8×8 board of piece letters, turn `w`/`b`,
in-bounds en-passant target, fullmove ≥ 1) and every well-formed xiangqi
position (10×9 board, turn `w`/`b`) — in particular on every legal
position.  Parse-then-serialise identity on serialised FEN strings follows.
-/
theorem claim_C8_fen_roundtrip :
    (∀ st : ChessState, chessWF st = true →
      chessParseFen (chessBoardToFen st) = st) ∧
    (∀ st : XqState, xqWF st = true →
      xqParseFen (xqBoardToFen st) = st) :=
  ⟨chessParseFen_boardToFen, xqParseFen_boardToFen⟩

/-- C8 (witness): the round trip evaluated at the initial chess and xiangqi
positions. -/
theorem claim_C8_witness :
    chessParseFen (chessBoardToFen chessInitial) = chessInitial ∧
    xqParseFen (xqBoardToFen xqInitial) = xqInitial :=
  ⟨claim_C8_fen_roundtrip.1 chessInitial (by decide),
   claim_C8_fen_roundtrip.2 xqInitial (by decide)⟩

end Games

namespace Games

/-! ### Lemmas: the `endRound` word map -/

theorem awLookup_insert (acc : List (String × List Nat)) (w' w : String) (s : Nat) :
    awLookup (insertWordSeat acc w' s) w =
      if w = w' then
        match awLookup acc w with
        | some seats => some (seats ++ [s])
        | none => some [s]
      else awLookup acc w := by
  unfold insertWordSeat awLookup
  have hcomp : ∀ (v : String),
      ((fun e : String × List Nat => decide (e.1 = v)) ∘
       (fun e : String × List Nat => if e.1 = w' then (e.1, e.2 ++ [s]) else e)) =
      (fun e : String × List Nat => decide (e.1 = v)) := by
    intro v
    funext e
    by_cases he : e.1 = w' <;> simp [he]
  cases hf' : acc.find? (fun e => e.1 = w') with
  | some e' =>
    simp only [hf']
    rw [List.find?_map, hcomp w]
    by_cases hw : w = w'
    · subst hw
      have he : e'.1 = w := by simpa using List.find?_some hf'
      simp [hf', he]
    · cases hf : acc.find? (fun e => e.1 = w) with
      | some e =>
        have he : e.1 = w := by simpa using List.find?_some hf
        have hne : ¬ e.1 = w' := by rw [he]; exact hw
        simp [hf, hw, hne]
      | none => simp [hf, hw]
  | none =>
    simp only [hf']
    rw [List.find?_append]
    by_cases hw : w = w'
    · subst hw
      rw [hf']
      simp
    · cases hf : acc.find? (fun e => e.1 = w) with
      | some e => simp [hf, hw]
      | none => simp [hf, hw, Ne.symm hw]

end Games

namespace Games

theorem insert_keys_nodup (acc : List (String × List Nat)) (w' : String) (s : Nat)
    (h : (acc.map Prod.fst).Nodup) :
    ((insertWordSeat acc w' s).map Prod.fst).Nodup := by
  unfold insertWordSeat
  cases hf : acc.find? (fun e => e.1 = w') with
  | some e =>
    simp only [hf]
    have hkeys : (acc.map (fun e => if e.1 = w' then (e.1, e.2 ++ [s]) else e)).map Prod.fst
        = acc.map Prod.fst := by
      rw [List.map_map]
      have : (Prod.fst ∘ fun e : String × List Nat =>
          if e.1 = w' then (e.1, e.2 ++ [s]) else e) = Prod.fst := by
        funext e
        by_cases he : e.1 = w' <;> simp [he]
      rw [this]
    exact hkeys ▸ h
  | none =>
    simp only [hf]
    rw [List.map_append]
    simp only [List.map_cons, List.map_nil]
    rw [List.nodup_append]
    refine ⟨h, by simp, ?_⟩
    intro k hk
    simp only [List.mem_singleton]
    intro hke
    obtain ⟨e, he, rfl⟩ := List.mem_map.mp hk
    have hne := List.find?_eq_none.mp hf e he
    simp only [decide_eq_true_eq] at hne
    exact hne hke

theorem awLookup_foldSeat (s : Nat) :
    ∀ (ws : List String) (acc : List (String × List Nat)), ws.Nodup → ∀ w,
      awLookup (ws.foldl (fun a w => insertWordSeat a w s) acc) w =
        if w ∈ ws then
          match awLookup acc w with
          | some seats => some (seats ++ [s])
          | none => some [s]
        else awLookup acc w := by
  intro ws
  induction ws with
  | nil => intro acc _ w; simp
  | cons w0 rest ih =>
    intro acc hnd w
    simp only [List.foldl_cons]
    rw [ih (insertWordSeat acc w0 s) (by simp at hnd; exact hnd.2) w]
    rw [awLookup_insert]
    by_cases hw : w = w0
    · subst hw
      have hnr : w ∉ rest := by simp at hnd; exact hnd.1
      simp [hnr]
    · by_cases hr : w ∈ rest <;> simp [hw, hr]

theorem foldSeat_keys_nodup (s : Nat) :
    ∀ (ws : List String) (acc : List (String × List Nat)),
      (acc.map Prod.fst).Nodup →
      (((ws.foldl (fun a w => insertWordSeat a w s) acc)).map Prod.fst).Nodup := by
  intro ws
  induction ws with
  | nil => intro acc h; exact h
  | cons w0 rest ih =>
    intro acc h
    simp only [List.foldl_cons]
    exact ih (insertWordSeat acc w0 s) (insert_keys_nodup acc w0 s h)

end Games

namespace Games

theorem seats_range_cons (w : String) (l : List String) (rest : List (List String))
    (s0 : Nat) :
    ((List.range (rest.length + 1)).filter
        (fun i => w ∈ (l :: rest).getD i [])).map (· + s0) =
      (if w ∈ l then [s0] else []) ++
        ((List.range rest.length).filter (fun i => w ∈ rest.getD i [])).map (· + (s0 + 1)) := by
  rw [List.range_succ_eq_map, List.filter_cons]
  have hfun : ((fun i => decide (w ∈ (l :: rest).getD i [])) ∘ Nat.succ) =
      (fun i => decide (w ∈ rest.getD i [])) := by
    funext i
    simp
  have hmapc : ((fun x => x + s0) ∘ Nat.succ) = (fun x => x + (s0 + 1)) := by
    funext x
    simp only [Function.comp_apply, Nat.succ_eq_add_one]
    omega
  rw [List.filter_map, hfun]
  by_cases hw : w ∈ l
  · simp only [List.getD_cons_zero, hw, decide_True, if_true, List.map_cons,
      List.map_map, hmapc, Nat.zero_add]
    rfl
  · simp only [List.getD_cons_zero, hw, decide_False, Bool.false_eq_true, if_false,
      List.map_map, hmapc, List.nil_append]

end Games

namespace Games

theorem awLookup_allWordsGo :
    ∀ (rest : List (List String)) (acc : List (String × List Nat)) (s0 : Nat),
      (∀ l ∈ rest, l.Nodup) → ∀ w,
      awLookup (allWordsGo acc s0 rest) w =
        match awLookup acc w with
        | some seats => some (seats ++
            ((List.range rest.length).filter (fun i => w ∈ rest.getD i [])).map (· + s0))
        | none =>
          if rest.any (fun l => w ∈ l) then
            some (((List.range rest.length).filter (fun i => w ∈ rest.getD i [])).map (· + s0))
          else none := by
  intro rest
  induction rest with
  | nil =>
    intro acc s0 _ w
    simp only [allWordsGo, List.length_nil, List.range_zero, List.filter_nil,
      List.map_nil, List.append_nil, List.any_nil, Bool.false_eq_true, if_false]
    cases awLookup acc w <;> rfl
  | cons l rest' ih =>
    intro acc s0 hnd w
    rw [allWordsGo]
    rw [ih (l.foldl (fun a w => insertWordSeat a w s0) acc) (s0 + 1)
      (fun l' hl' => hnd l' (by simp [hl'])) w]
    rw [awLookup_foldSeat s0 l acc (hnd l (by simp)) w]
    rw [List.length_cons, seats_range_cons]
    by_cases hw : w ∈ l
    · simp only [hw, if_true]
      cases hacc : awLookup acc w with
      | some seats => simp
      | none => simp [hw]
    · simp only [hw, Bool.false_eq_true, if_false, List.nil_append]
      cases hacc : awLookup acc w with
      | some seats => simp
      | none =>
        simp only [List.any_cons, hw, decide_False, Bool.false_or]

theorem awLookup_allWordsOf (subs : List (List String))
    (hnd : ∀ l ∈ subs, l.Nodup) (w : String) :
    awLookup (allWordsOf subs) w =
      if subs.any (fun l => w ∈ l) then some (seatsIdx subs w) else none := by
  unfold allWordsOf seatsIdx
  rw [awLookup_allWordsGo subs [] 0 hnd w]
  have h0 : awLookup [] w = none := rfl
  rw [h0]
  have hid : (((List.range subs.length).filter (fun i => w ∈ subs.getD i [])).map (· + 0)) =
      ((List.range subs.length).filter (fun i => w ∈ subs.getD i [])) := by
    simp
  rw [hid]

theorem allWordsOf_keys_nodup (subs : List (List String)) :
    ((allWordsOf subs).map Prod.fst).Nodup := by
  unfold allWordsOf
  suffices h : ∀ (rest : List (List String)) (acc : List (String × List Nat)) (s0 : Nat),
      (acc.map Prod.fst).Nodup → ((allWordsGo acc s0 rest).map Prod.fst).Nodup by
    exact h subs [] 0 (by simp)
  intro rest
  induction rest with
  | nil => intro acc s0 h; exact h
  | cons l rest' ih =>
    intro acc s0 h
    rw [allWordsGo]
    exact ih _ (s0 + 1) (foldSeat_keys_nodup s0 l acc h)

theorem find?_of_mem_keys_nodup :
    ∀ (acc : List (String × List Nat)) (e : String × List Nat),
      (acc.map Prod.fst).Nodup → e ∈ acc →
      acc.find? (fun x => x.1 = e.1) = some e := by
  intro acc
  induction acc with
  | nil => intro e _ he; simp at he
  | cons a rest ih =>
    intro e hnd he
    rcases List.mem_cons.mp he with rfl | he'
    · simp
    · have hne : ¬ a.1 = e.1 := by
        intro heq
        simp only [List.map_cons, List.nodup_cons] at hnd
        exact hnd.1 (heq ▸ List.mem_map.mpr ⟨e, he', rfl⟩)
      rw [List.find?_cons]
      simp only [hne, decide_False]
      exact ih e (by simp only [List.map_cons, List.nodup_cons] at hnd; exact hnd.2) he'

theorem mem_allWordsOf_char (subs : List (List String))
    (hnd : ∀ l ∈ subs, l.Nodup) (e : String × List Nat) :
    e ∈ allWordsOf subs ↔
      (subs.any (fun l => e.1 ∈ l) = true ∧ e.2 = seatsIdx subs e.1) := by
  constructor
  · intro he
    have hf := find?_of_mem_keys_nodup (allWordsOf subs) e (allWordsOf_keys_nodup subs) he
    have hl : awLookup (allWordsOf subs) e.1 = some e.2 := by
      unfold awLookup
      rw [hf]
      rfl
    rw [awLookup_allWordsOf subs hnd e.1] at hl
    by_cases hany : subs.any (fun l => e.1 ∈ l) = true
    · rw [if_pos hany] at hl
      exact ⟨hany, (Option.some.inj hl).symm⟩
    · rw [if_neg hany] at hl
      cases hl
  · rintro ⟨hany, hseats⟩
    have hl : awLookup (allWordsOf subs) e.1 = some (seatsIdx subs e.1) := by
      rw [awLookup_allWordsOf subs hnd e.1, if_pos hany]
    unfold awLookup at hl
    cases hf : (allWordsOf subs).find? (fun x => x.1 = e.1) with
    | none => rw [hf] at hl; cases hl
    | some e' =>
      rw [hf] at hl
      have he' := List.mem_of_find?_eq_some hf
      have hk : e'.1 = e.1 := by simpa using List.find?_some hf
      have hv : e'.2 = seatsIdx subs e.1 := by simpa using hl
      have : e' = e := by
        obtain ⟨a, b⟩ := e
        obtain ⟨a', b'⟩ := e'
        simp only at hk hv hseats
        rw [hk, hv, hseats]
      exact this ▸ he'

end Games

namespace Games

theorem fold_set_length {α : Type} (d : α) (f : α → α) :
    ∀ (seats : List Nat) (out : List α),
      (seats.foldl (fun o t => o.set t (f (o.getD t d))) out).length = out.length := by
  intro seats
  induction seats with
  | nil => intro out; rfl
  | cons t rest ih =>
    intro out
    simp only [List.foldl_cons]
    rw [ih]
    simp

theorem fold_set_notmem {α : Type} (d : α) (f : α → α) :
    ∀ (seats : List Nat) (out : List α) (s : Nat), s ∉ seats →
      (seats.foldl (fun o t => o.set t (f (o.getD t d))) out).getD s d = out.getD s d := by
  intro seats
  induction seats with
  | nil => intro out s _; rfl
  | cons t rest ih =>
    intro out s hs
    simp only [List.foldl_cons]
    rw [ih _ s (fun h => hs (by simp [h]))]
    simp only [List.getD_eq_getElem?_getD]
    rw [List.getElem?_set_ne (fun h => hs (by simp [h]))]

theorem fold_set_mem {α : Type} (d : α) (f : α → α) :
    ∀ (seats : List Nat) (out : List α) (s : Nat), seats.Nodup → s < out.length →
      s ∈ seats →
      (seats.foldl (fun o t => o.set t (f (o.getD t d))) out).getD s d =
        f (out.getD s d) := by
  intro seats
  induction seats with
  | nil => intro out s _ _ h; simp at h
  | cons t rest ih =>
    intro out s hnd hlen hs
    simp only [List.foldl_cons]
    simp only [List.nodup_cons] at hnd
    rcases List.mem_cons.mp hs with rfl | hs'
    · rw [fold_set_notmem d f rest _ s hnd.1]
      simp only [List.getD_eq_getElem?_getD]
      rw [List.getElem?_set_self hlen]
      simp
    · by_cases hts : t = s
      · subst hts
        exact absurd hs' hnd.1
      · rw [ih _ s hnd.2 (by simpa using hlen) hs']
        simp only [List.getD_eq_getElem?_getD]
        rw [List.getElem?_set_ne hts]

theorem fold_entries_getD {α : Type} (d : α) (F : (String × List Nat) → α → α) :
    ∀ (L : List (String × List Nat)) (init : List α) (s : Nat), s < init.length →
      (∀ e ∈ L, e.2.Nodup) →
      ((L.foldl (fun out e => e.2.foldl (fun o t => o.set t (F e (o.getD t d))) out) init).getD s d
        = (L.filter (fun e => s ∈ e.2)).foldl (fun v e => F e v) (init.getD s d)) ∧
      (L.foldl (fun out e => e.2.foldl (fun o t => o.set t (F e (o.getD t d))) out) init).length
        = init.length := by
  intro L
  induction L with
  | nil => intro init s _ _; exact ⟨rfl, rfl⟩
  | cons e rest ih =>
    intro init s hlen hnd
    simp only [List.foldl_cons, List.filter_cons]
    set init' := e.2.foldl (fun o t => o.set t (F e (o.getD t d))) init with hinit'
    have hlen' : init'.length = init.length := fold_set_length d (F e) e.2 init
    obtain ⟨ihg, ihl⟩ := ih init' s (by omega) (fun e' he' => hnd e' (by simp [he']))
    refine ⟨?_, by rw [ihl]; exact hlen'⟩
    rw [ihg]
    by_cases hs : s ∈ e.2
    · simp only [hs, decide_True, if_true, List.foldl_cons]
      rw [hinit']
      rw [fold_set_mem d (F e) e.2 init s (hnd e (by simp)) hlen hs]
    · simp only [hs, decide_False, Bool.false_eq_true, if_false]
      rw [hinit']
      rw [fold_set_notmem d (F e) e.2 init s hs]

theorem foldl_add_eq_sum (pts : (String × List Nat) → Nat) :
    ∀ (L : List (String × List Nat)) (v : Nat),
      L.foldl (fun acc e => acc + pts e) v = v + (L.map pts).sum := by
  intro L
  induction L with
  | nil => intro v; simp
  | cons e rest ih =>
    intro v
    simp only [List.foldl_cons, List.map_cons, List.sum_cons]
    rw [ih]
    omega

theorem foldl_append_eq_map {β : Type} (g : (String × List Nat) → β) :
    ∀ (L : List (String × List Nat)) (v : List β),
      L.foldl (fun acc e => acc ++ [g e]) v = v ++ L.map g := by
  intro L
  induction L with
  | nil => intro v; simp
  | cons e rest ih =>
    intro v
    simp only [List.foldl_cons, List.map_cons]
    rw [ih]
    simp

theorem sum_map_ite (P : String → Prop) [DecidablePred P] (f : String → Nat) :
    ∀ (l : List String),
      (l.map (fun w => if P w then f w else 0)).sum = ((l.filter (fun w => P w)).map f).sum := by
  intro l
  induction l with
  | nil => rfl
  | cons w rest ih =>
    simp only [List.map_cons, List.sum_cons, List.filter_cons]
    by_cases hw : P w
    · simp only [hw, if_true, decide_True, List.map_cons, List.sum_cons]
      rw [ih]
    · simp only [hw, if_false, decide_False, Bool.false_eq_true]
      rw [ih]
      omega

theorem mem_insertSorted {α : Type} (le : α → α → Bool) (a x : α) :
    ∀ (l : List α), x ∈ insertSorted le a l ↔ x = a ∨ x ∈ l := by
  intro l
  induction l with
  | nil => simp [insertSorted]
  | cons b rest ih =>
    rw [insertSorted]
    by_cases hab : le a b
    · simp [hab]
    · simp only [hab, Bool.false_eq_true, if_false, List.mem_cons, ih]
      tauto

theorem mem_jsSort {α : Type} (le : α → α → Bool) (x : α) :
    ∀ (l : List α), x ∈ jsSort le l ↔ x ∈ l := by
  intro l
  induction l with
  | nil => simp [jsSort]
  | cons b rest ih =>
    rw [jsSort, List.foldr_cons]
    rw [show List.foldr (insertSorted le) [] rest = jsSort le rest from rfl]
    rw [mem_insertSorted, ih]
    simp

end Games

namespace Games

theorem seatsIdx_nodup (subs : List (List String)) (w : String) :
    (seatsIdx subs w).Nodup :=
  (List.nodup_range _).filter _

theorem mem_seatsIdx (subs : List (List String)) (w : String) (s : Nat)
    (hs : s < subs.length) :
    s ∈ seatsIdx subs w ↔ w ∈ subs.getD s [] := by
  unfold seatsIdx
  rw [List.mem_filter, List.mem_range]
  simp [hs]

theorem getD_mem_of_lt (subs : List (List String)) (s : Nat) (hs : s < subs.length) :
    subs.getD s [] ∈ subs := by
  rw [List.getD_eq_getElem?_getD, List.getElem?_eq_getElem hs]
  simp only [Option.getD_some]
  exact List.getElem_mem hs

theorem mem_keys_of_mem_seat (subs : List (List String))
    (hnd : ∀ l ∈ subs, l.Nodup) (s : Nat) (hs : s < subs.length) (w : String)
    (hw : w ∈ subs.getD s []) : w ∈ (allWordsOf subs).map Prod.fst := by
  have hany : subs.any (fun l => w ∈ l) = true := by
    rw [List.any_eq_true]
    exact ⟨subs.getD s [], getD_mem_of_lt subs s hs, by simpa using hw⟩
  have hl : awLookup (allWordsOf subs) w = some (seatsIdx subs w) := by
    rw [awLookup_allWordsOf subs hnd w, if_pos hany]
  unfold awLookup at hl
  cases hf : (allWordsOf subs).find? (fun e => e.1 = w) with
  | none => rw [hf] at hl; cases hl
  | some e =>
    have he := List.mem_of_find?_eq_some hf
    have hk : e.1 = w := by simpa using List.find?_some hf
    exact hk ▸ List.mem_map.mpr ⟨e, he, rfl⟩

theorem allWordsOf_seats (subs : List (List String))
    (hnd : ∀ l ∈ subs, l.Nodup) :
    ∀ e ∈ allWordsOf subs, e.2 = seatsIdx subs e.1 := by
  intro e he
  exact ((mem_allWordsOf_char subs hnd e).mp he).2

theorem endScores_spec (subs : List (List String))
    (hnd : ∀ l ∈ subs, l.Nodup) (s : Nat) (hs : s < subs.length) :
    (endScores subs).getD s 0 =
      (((subs.getD s []).filter (fun w => seatCount subs w = 1)).map scoreWord).sum := by
  have hseatnd : ∀ e ∈ allWordsOf subs, e.2.Nodup := by
    intro e he
    rw [allWordsOf_seats subs hnd e he]
    exact seatsIdx_nodup subs e.1
  have hfold := (fold_entries_getD 0
    (fun e v => v + (if e.2.length = 1 then scoreWord e.1 else 0))
    (allWordsOf subs) (List.replicate subs.length 0) s
    (by simpa using hs) hseatnd).1
  have hstart : (endScores subs).getD s 0 =
      ((allWordsOf subs).filter (fun e => s ∈ e.2)).foldl
        (fun v e => v + (if e.2.length = 1 then scoreWord e.1 else 0))
        ((List.replicate subs.length 0).getD s 0) := by
    exact hfold
  rw [hstart]
  rw [foldl_add_eq_sum]
  have hinit : (List.replicate subs.length 0).getD s 0 = 0 := by
    rw [List.getD_eq_getElem?_getD, List.getElem?_replicate, if_pos hs]
    rfl
  rw [hinit, Nat.zero_add]
  -- rewrite the filter predicate to talk about the seat's word set
  have hfil : (allWordsOf subs).filter (fun e => s ∈ e.2) =
      (allWordsOf subs).filter (fun e => e.1 ∈ subs.getD s []) := by
    apply List.filter_congr
    intro e he
    rw [allWordsOf_seats subs hnd e he]
    simp only [decide_eq_decide]
    exact mem_seatsIdx subs e.1 s hs
  rw [hfil]
  -- each entry's points depend only on its key
  have hmapc : ((allWordsOf subs).filter (fun e => e.1 ∈ subs.getD s [])).map
      (fun e => if e.2.length = 1 then scoreWord e.1 else 0) =
      ((allWordsOf subs).filter (fun e => e.1 ∈ subs.getD s [])).map
      (fun e => (fun w => if seatCount subs w = 1 then scoreWord w else 0) e.1) := by
    apply List.map_congr_left
    intro e he
    have hmem := (List.mem_filter.mp he).1
    rw [allWordsOf_seats subs hnd e hmem]
    rfl
  rw [hmapc]
  rw [show ((allWordsOf subs).filter (fun e => e.1 ∈ subs.getD s [])).map
      (fun e => (fun w => if seatCount subs w = 1 then scoreWord w else 0) e.1) =
      (((allWordsOf subs).filter (fun e => e.1 ∈ subs.getD s [])).map Prod.fst).map
      (fun w => if seatCount subs w = 1 then scoreWord w else 0) by
    rw [List.map_map]
    rfl]
  have hfm : ((allWordsOf subs).filter (fun e => e.1 ∈ subs.getD s [])).map Prod.fst =
      ((allWordsOf subs).map Prod.fst).filter (fun w => w ∈ subs.getD s []) := by
    rw [List.filter_map]
    rfl
  rw [hfm]
  -- permutation with the seat's own set
  have hperm : List.Perm
      (((allWordsOf subs).map Prod.fst).filter (fun w => w ∈ subs.getD s []))
      (subs.getD s []) := by
    rw [List.perm_ext_iff_of_nodup ((allWordsOf_keys_nodup subs).filter _)
      (hnd (subs.getD s []) (getD_mem_of_lt subs s hs))]
    intro w
    rw [List.mem_filter]
    simp only [decide_eq_true_eq]
    constructor
    · exact fun h => h.2
    · intro h
      exact ⟨mem_keys_of_mem_seat subs hnd s hs w h, h⟩
  rw [(hperm.map (fun w => if seatCount subs w = 1 then scoreWord w else 0)).sum_eq]
  rw [sum_map_ite]

end Games

namespace Games

theorem endWordsRaw_length (subs : List (List String))
    (hnd : ∀ l ∈ subs, l.Nodup) (s : Nat) (hs : s < subs.length) :
    (endWordsRaw subs).length = subs.length := by
  have hseatnd : ∀ e ∈ allWordsOf subs, e.2.Nodup := by
    intro e he
    rw [allWordsOf_seats subs hnd e he]
    exact seatsIdx_nodup subs e.1
  have h := (fold_entries_getD ([] : List WordEntry)
    (fun e v => v ++ [(⟨e.1, if e.2.length = 1 then scoreWord e.1 else 0,
      decide (e.2.length = 1)⟩ : WordEntry)])
    (allWordsOf subs) (List.replicate subs.length []) s
    (by simpa using hs) hseatnd).2
  have h2 : (endWordsRaw subs).length =
      (List.replicate subs.length ([] : List WordEntry)).length := h
  simpa using h2

theorem endWordsRaw_spec (subs : List (List String))
    (hnd : ∀ l ∈ subs, l.Nodup) (s : Nat) (hs : s < subs.length) :
    (endWordsRaw subs).getD s [] =
      ((allWordsOf subs).filter (fun e => s ∈ e.2)).map
        (fun e => (⟨e.1, if e.2.length = 1 then scoreWord e.1 else 0,
          decide (e.2.length = 1)⟩ : WordEntry)) := by
  have hseatnd : ∀ e ∈ allWordsOf subs, e.2.Nodup := by
    intro e he
    rw [allWordsOf_seats subs hnd e he]
    exact seatsIdx_nodup subs e.1
  have hfold := (fold_entries_getD ([] : List WordEntry)
    (fun e v => v ++ [(⟨e.1, if e.2.length = 1 then scoreWord e.1 else 0,
      decide (e.2.length = 1)⟩ : WordEntry)])
    (allWordsOf subs) (List.replicate subs.length []) s
    (by simpa using hs) hseatnd).1
  have hstart : (endWordsRaw subs).getD s [] =
      ((allWordsOf subs).filter (fun e => s ∈ e.2)).foldl
        (fun v e => v ++ [(⟨e.1, if e.2.length = 1 then scoreWord e.1 else 0,
          decide (e.2.length = 1)⟩ : WordEntry)])
        ((List.replicate subs.length []).getD s []) := by
    exact hfold
  rw [hstart, foldl_append_eq_map]
  have hinit : (List.replicate subs.length ([] : List WordEntry)).getD s [] = [] := by
    rw [List.getD_eq_getElem?_getD, List.getElem?_replicate, if_pos hs]
    rfl
  rw [hinit, List.nil_append]

theorem endWords_getD (subs : List (List String)) (s : Nat)
    (hraw : s < (endWordsRaw subs).length) :
    (endWords subs).getD s [] =
      jsSort (fun a b => if a.unique ≠ b.unique then a.unique else a.word ≤ b.word)
        ((endWordsRaw subs).getD s []) := by
  unfold endWords
  have h1 : (endWordsRaw subs)[s]? = some ((endWordsRaw subs).getD s []) := by
    rw [List.getElem?_eq_getElem hraw, List.getD_eq_getElem?_getD,
      List.getElem?_eq_getElem hraw]
    rfl
  rw [List.getD_eq_getElem?_getD, List.getElem?_map, h1]
  rfl

/-- **C9.**  After `endRound()` in any Boggle round with any per-seat
submission sets (each duplicate-free, as JS `Set`s are), a word entry is
marked unique exactly when the word appears in exactly one seat's
submission set, its score is the `scoreWord` point value when unique and 0
otherwise, each seat's word list holds exactly its own submitted words,
and each seat's final score is the sum of the point values of its unique
words. -/
theorem claim_C9_endRound_unique_scoring (subs : List (List String))
    (hnd : ∀ l ∈ subs, l.Nodup) (s : Nat) (hs : s < subs.length) :
    (endScores subs).getD s 0 =
      (((subs.getD s []).filter (fun w => seatCount subs w = 1)).map scoreWord).sum ∧
    ∀ x : WordEntry, x ∈ (endWords subs).getD s [] ↔
      (x.word ∈ subs.getD s [] ∧
       x.unique = decide (seatCount subs x.word = 1) ∧
       x.score = if seatCount subs x.word = 1 then scoreWord x.word else 0) := by
  refine ⟨endScores_spec subs hnd s hs, ?_⟩
  intro x
  have hraw : s < (endWordsRaw subs).length := by
    rw [endWordsRaw_length subs hnd s hs]
    exact hs
  rw [endWords_getD subs s hraw, mem_jsSort, endWordsRaw_spec subs hnd s hs,
    List.mem_map]
  constructor
  · rintro ⟨e, he, rfl⟩
    obtain ⟨hmem, hse⟩ := List.mem_filter.mp he
    have hseats := allWordsOf_seats subs hnd e hmem
    have hsint : s ∈ e.2 := by simpa using hse
    rw [hseats] at hsint
    have hw : e.1 ∈ subs.getD s [] := (mem_seatsIdx subs e.1 s hs).mp hsint
    refine ⟨hw, ?_, ?_⟩
    · show decide (e.2.length = 1) = decide (seatCount subs e.1 = 1)
      rw [hseats]
      rfl
    · show (if e.2.length = 1 then scoreWord e.1 else 0) =
        if seatCount subs e.1 = 1 then scoreWord e.1 else 0
      rw [hseats]
      rfl
  · rintro ⟨hw, hu, hsc⟩
    refine ⟨(x.word, seatsIdx subs x.word), ?_, ?_⟩
    · rw [List.mem_filter]
      constructor
      · rw [mem_allWordsOf_char subs hnd]
        refine ⟨?_, rfl⟩
        rw [List.any_eq_true]
        exact ⟨subs.getD s [], getD_mem_of_lt subs s hs, by simpa using hw⟩
      · simpa using (mem_seatsIdx subs x.word s hs).mpr hw
    · obtain ⟨w, sc, u⟩ := x
      dsimp only at hu hsc hw ⊢
      rw [hu, hsc]
      rfl

theorem claim_C9_witness :
    (endScores [["TEACH"], ["TEACH", "REACH"]]).getD 1 0 =
      ((((([["TEACH"], ["TEACH", "REACH"]] : List (List String))).getD 1 []).filter
          (fun w => seatCount [["TEACH"], ["TEACH", "REACH"]] w = 1)).map scoreWord).sum ∧
    (⟨"REACH", 2, true⟩ : WordEntry) ∈
      (endWords [["TEACH"], ["TEACH", "REACH"]]).getD 1 [] := by
  have h := claim_C9_endRound_unique_scoring [["TEACH"], ["TEACH", "REACH"]]
    (by decide) 1 (by decide)
  exact ⟨h.1, (h.2 ⟨"REACH", 2, true⟩).mpr (by decide)⟩

end Games
